import Mathlib

/-!
Verification of the rowing tracker's ingestion-deduplication and
timezone-aware aggregation engine, shallowly embedded from the
TypeScript sources (`scraper.ts`, `analytics.ts`, `database.ts`).

Modelling conventions:
* UTC instants are `Int` milliseconds since the Unix epoch (the value of
  `Date.prototype.getTime`); a calendar date is its day number
  `fdiv t 86400000` (the ISO `YYYY-MM-DD` component of `toISOString` is a
  strictly monotone bijection with this day number).
* JavaScript numbers on the data paths the claims exercise are modelled
  as `ℚ`; `parseFloat`/`parseInt` are external parsers, passed in as
  functions returning `Option` (`none` encodes `NaN`).
* JavaScript `%` on integers is truncating remainder, i.e. `Int.tmod`.
* `null` is `Option.none`.
-/

namespace Rowing

/-! ## Time bucketing (analytics.ts) -/

def msPerHour : Int := 3600000

def msPerDay : Int := 86400000

/-- `calculateAnalytics` (analytics.ts:360-362): the local calendar date of a
UTC instant under an hour offset is obtained by shifting the instant by
`timezoneOffset * 60 * 60 * 1000` milliseconds and extracting the date
component of `toISOString`, i.e. the floor-division day number. -/
def localDayOf (t tz : Int) : Int := (t + tz * msPerHour).fdiv msPerDay

/-- `getTableAnalytics` (analytics.ts:139,145): `startOfDay` is the instant
`D T00:00:00.000Z` shifted by `setMinutes(getMinutes() - timezoneOffset*60)`. -/
def dayStartUtc (d tz : Int) : Int := d * msPerDay - tz * msPerHour

/-- `getTableAnalytics` (analytics.ts:140,146): `endOfDay` is the instant
`D T23:59:59.999Z` shifted by `setMinutes(getMinutes() - timezoneOffset*60)`. -/
def dayEndUtc (d tz : Int) : Int := d * msPerDay + 86399999 - tz * msPerHour

/-- `getUTCHours` of an instant: hour-of-day in UTC (floor semantics,
valid for instants on either side of the epoch). -/
def hourUtc (t : Int) : Int := (t.fdiv msPerHour).emod 24

/-- `(utcDate.getUTCHours() + timezoneOffset + 24) % 24` (analytics.ts:217,
225, 395); JavaScript `%` is truncating remainder. -/
def localHourJs (t tz : Int) : Int := Int.tmod (hourUtc t + tz + 24) 24

/-- Characterization of floor division by a positive divisor. -/
theorem fdiv_eq_iff {a b d : Int} (hb : 0 < b) :
    a.fdiv b = d ↔ d * b ≤ a ∧ a < (d + 1) * b := by
  have hadd := Int.fmod_add_fdiv a b
  have h0 := Int.fmod_nonneg' a hb
  have hlt := Int.fmod_lt_of_pos a hb
  constructor
  · rintro rfl
    constructor <;> nlinarith [hadd]
  · rintro ⟨hle, hlt2⟩
    rcases lt_trichotomy (a.fdiv b) d with h | h | h
    · exfalso
      have h1 : a.fdiv b + 1 ≤ d := h
      nlinarith
    · exact h
    · exfalso
      have h1 : d + 1 ≤ a.fdiv b := h
      nlinarith

/-- **C3**: for every integer UTC offset `H ∈ [-12, 14]`, every local calendar
date `D` and every UTC instant `t`, the local date extracted by the bucketing
path (`localDayOf`) equals `D` exactly when `t` lies in the closed UTC range
`[dayStartUtc D H, dayEndUtc D H]` derived for range reads: the day-range
derivation is the exact inverse of the local-date extraction. -/
theorem localDay_inverts_dayRange (H D t : Int) (h1 : -12 ≤ H) (h2 : H ≤ 14) :
    localDayOf t H = D ↔ dayStartUtc D H ≤ t ∧ t ≤ dayEndUtc D H := by
  unfold localDayOf dayStartUtc dayEndUtc msPerDay msPerHour
  rw [fdiv_eq_iff (by norm_num)]
  omega

/-- Witness for C3: the instant one hour before UTC midnight of day 0 lies in
local day 0 under offset +1, so by the theorem it falls inside the derived
UTC range for day 0 at that offset. -/
theorem localDay_inverts_dayRange_witness :
    dayStartUtc 0 1 ≤ -3600000 ∧ (-3600000 : Int) ≤ dayEndUtc 0 1 :=
  (localDay_inverts_dayRange 1 0 (-3600000) (by norm_num) (by norm_num)).mp
    (by decide)

/-! ## Data model and ingestion deduplicator (scraper.ts) -/

/-- One parsed table row (`interface RowingData`, scraper.ts:14-30); within
one batch every row carries the batch's scrape instant in `scrapedAt`. -/
structure RowingData where
  no : String
  device : String
  name : String
  lastUpdate : String
  latitude : String
  longitude : String
  latitudeDecimal : String
  longitudeDecimal : String
  speed : String
  course : String
  nextWaypoint : String
  dtf : String
  vmg : String
  sourceUrl : String
  scrapedAt : Int
  deriving Repr, DecidableEq

/-- One persisted row of the `rowing_data` table: the `RowingData` fields
plus the store-owned `createdAt` bookkeeping column. -/
structure Row where
  no : String
  device : String
  name : String
  lastUpdate : String
  latitude : String
  longitude : String
  latitudeDecimal : String
  longitudeDecimal : String
  speed : String
  course : String
  nextWaypoint : String
  dtf : String
  vmg : String
  sourceUrl : String
  scrapedAt : Int
  createdAt : Int
  deriving Repr, DecidableEq

/-- The compound unique key `name_sourceUrl_lastUpdate`
(migration `rowing_data_name_sourceUrl_lastUpdate_key`). -/
def rowKey (r : Row) : String × String × String := (r.name, r.sourceUrl, r.lastUpdate)

/-- The same key computed from a freshly parsed batch row. -/
def dataKey (d : RowingData) : String × String × String := (d.name, d.sourceUrl, d.lastUpdate)

/-- The `update` clause of `prisma.rowingData.upsert` (scraper.ts:196-209):
every field except the key fields and `createdAt` is overwritten with the
batch row's values, `scrapedAt` included. -/
def applyUpdate (r : Row) (d : RowingData) : Row :=
  { r with
    no := d.no, device := d.device,
    latitude := d.latitude, longitude := d.longitude,
    latitudeDecimal := d.latitudeDecimal, longitudeDecimal := d.longitudeDecimal,
    speed := d.speed, course := d.course,
    nextWaypoint := d.nextWaypoint, dtf := d.dtf, vmg := d.vmg,
    scrapedAt := d.scrapedAt }

/-- The `create` clause of `prisma.rowingData.upsert` (scraper.ts:210-226);
`createdAt` is filled by the store's default at insertion time. -/
def createRow (d : RowingData) (now : Int) : Row :=
  { no := d.no, device := d.device, name := d.name, lastUpdate := d.lastUpdate,
    latitude := d.latitude, longitude := d.longitude,
    latitudeDecimal := d.latitudeDecimal, longitudeDecimal := d.longitudeDecimal,
    speed := d.speed, course := d.course,
    nextWaypoint := d.nextWaypoint, dtf := d.dtf, vmg := d.vmg,
    sourceUrl := d.sourceUrl, scrapedAt := d.scrapedAt, createdAt := now }

/-- `prisma.rowingData.upsert` keyed by `name_sourceUrl_lastUpdate`
(scraper.ts:188-227): update the row with the matching key if one exists,
otherwise insert the `create` row. The store is a list of rows; the unique
index makes at most one row match, so updating the first match is exact. -/
def upsert : List Row → RowingData → Int → List Row
  | [], d, now => [createRow d now]
  | r :: rs, d, now =>
      if rowKey r = dataKey d then applyUpdate r d :: rs
      else r :: upsert rs d now

/-- The upsert loop over a batch (scraper.ts:187-229), failure-free path. -/
def ingestBatch (s : List Row) (batch : List RowingData) (now : Int) : List Row :=
  batch.foldl (fun acc d => upsert acc d now) s

/-- The keys currently present in the store. -/
def keys (s : List Row) : List (String × String × String) := s.map rowKey

theorem rowKey_applyUpdate (r : Row) (d : RowingData) :
    rowKey (applyUpdate r d) = rowKey r := rfl

theorem rowKey_createRow (d : RowingData) (now : Int) :
    rowKey (createRow d now) = dataKey d := rfl

theorem keys_upsert_of_mem {s : List Row} {d : RowingData} (now : Int)
    (h : dataKey d ∈ keys s) : keys (upsert s d now) = keys s := by
  induction s with
  | nil => simp [keys] at h
  | cons r rs ih =>
      by_cases hk : rowKey r = dataKey d
      · simp [upsert, hk, keys, rowKey_applyUpdate]
      · have hmem : dataKey d ∈ keys rs := by
          simp [keys] at h ⊢
          rcases h with h | h
          · exact absurd h.symm hk
          · exact h
        have := ih hmem
        simp only [upsert, if_neg hk, keys, List.map_cons] at this ⊢
        rw [this]

theorem upsert_of_not_mem {s : List Row} {d : RowingData} (now : Int)
    (h : dataKey d ∉ keys s) : upsert s d now = s ++ [createRow d now] := by
  induction s with
  | nil => simp [upsert]
  | cons r rs ih =>
      have hk : rowKey r ≠ dataKey d := by
        intro he
        exact h (by simp [keys, he])
      have hmem : dataKey d ∉ keys rs := by
        intro hm
        exact h (by simp [keys] at hm ⊢; exact Or.inr hm)
      simp [upsert, hk, ih hmem]

theorem length_upsert_of_mem {s : List Row} {d : RowingData} (now : Int)
    (h : dataKey d ∈ keys s) : (upsert s d now).length = s.length := by
  have := keys_upsert_of_mem now h
  have h1 : (keys (upsert s d now)).length = (keys s).length := by rw [this]
  simpa [keys] using h1

theorem mem_keys_upsert_self (s : List Row) (d : RowingData) (now : Int) :
    dataKey d ∈ keys (upsert s d now) := by
  by_cases h : dataKey d ∈ keys s
  · rw [keys_upsert_of_mem now h]; exact h
  · rw [upsert_of_not_mem now h]
    simp [keys, rowKey_createRow]

theorem mem_keys_upsert_mono {s : List Row} {k : String × String × String}
    (d : RowingData) (now : Int) (h : k ∈ keys s) :
    k ∈ keys (upsert s d now) := by
  by_cases hm : dataKey d ∈ keys s
  · rw [keys_upsert_of_mem now hm]; exact h
  · rw [upsert_of_not_mem now hm]
    simp [keys] at h ⊢
    exact Or.inl h

theorem mem_keys_ingestBatch_mono {s : List Row} {k : String × String × String}
    (batch : List RowingData) (now : Int) (h : k ∈ keys s) :
    k ∈ keys (ingestBatch s batch now) := by
  induction batch generalizing s with
  | nil => exact h
  | cons d ds ih => exact ih (mem_keys_upsert_mono d now h)

theorem mem_keys_ingestBatch {s : List Row} {batch : List RowingData}
    (now : Int) {d : RowingData} (h : d ∈ batch) :
    dataKey d ∈ keys (ingestBatch s batch now) := by
  induction batch generalizing s with
  | nil => cases h
  | cons b bs ih =>
      rcases List.mem_cons.mp h with rfl | h
      · exact mem_keys_ingestBatch_mono bs now (mem_keys_upsert_self s d now)
      · exact ih h

theorem keys_ingestBatch_of_all_mem {s : List Row} {batch : List RowingData}
    (now : Int) (h : ∀ d ∈ batch, dataKey d ∈ keys s) :
    keys (ingestBatch s batch now) = keys s := by
  induction batch generalizing s with
  | nil => rfl
  | cons b bs ih =>
      have hb : dataKey b ∈ keys s := h b (by simp)
      have : keys (upsert s b now) = keys s := keys_upsert_of_mem now hb
      calc keys (ingestBatch (upsert s b now) bs now)
          = keys (upsert s b now) := by
            refine ih ?_
            intro d hd
            rw [this]
            exact h d (by simp [hd])
        _ = keys s := this

theorem length_ingestBatch_of_all_mem {s : List Row} {batch : List RowingData}
    (now : Int) (h : ∀ d ∈ batch, dataKey d ∈ keys s) :
    (ingestBatch s batch now).length = s.length := by
  have h1 := keys_ingestBatch_of_all_mem now h
  have h2 : (keys (ingestBatch s batch now)).length = (keys s).length := by rw [h1]
  simpa [keys] using h2

theorem nodup_keys_upsert {s : List Row} (d : RowingData) (now : Int)
    (h : (keys s).Nodup) : (keys (upsert s d now)).Nodup := by
  by_cases hm : dataKey d ∈ keys s
  · rwa [keys_upsert_of_mem now hm]
  · rw [upsert_of_not_mem now hm]
    simp only [keys, List.map_append, List.map_cons, List.map_nil]
    rw [List.nodup_append]
    refine ⟨h, by simp, ?_⟩
    intro k hk
    simp [rowKey_createRow]
    intro he
    exact hm (he ▸ hk)

theorem nodup_keys_ingestBatch {s : List Row} (batch : List RowingData)
    (now : Int) (h : (keys s).Nodup) : (keys (ingestBatch s batch now)).Nodup := by
  induction batch generalizing s with
  | nil => exact h
  | cons b bs ih => exact ih (nodup_keys_upsert b now h)

theorem length_upsert_of_not_mem {s : List Row} {d : RowingData} (now : Int)
    (h : dataKey d ∉ keys s) : (upsert s d now).length = s.length + 1 := by
  rw [upsert_of_not_mem now h]
  simp

theorem keys_upsert_of_not_mem {s : List Row} {d : RowingData} (now : Int)
    (h : dataKey d ∉ keys s) :
    keys (upsert s d now) = keys s ++ [dataKey d] := by
  rw [upsert_of_not_mem now h]
  simp [keys, rowKey_createRow]

theorem ingestBatch_append (s : List Row) (l1 l2 : List RowingData) (now : Int) :
    ingestBatch s (l1 ++ l2) now = ingestBatch (ingestBatch s l1 now) l2 now := by
  simp [ingestBatch, List.foldl_append]

/-- **C1**: for a batch `pre ++ dOld :: post` ingested into a store, (a)
re-ingesting the identical batch leaves the row count unchanged; (b)
ingesting the batch in which exactly the one team's `lastUpdate` label has
changed (`dNew`, same name and source, fresh label) increases the row count
by exactly one; (c) the triple `(name, sourceUrl, lastUpdate)` stays a
unique key of the store. -/
theorem ingest_dedup_key (s : List Row) (pre post : List RowingData)
    (dOld dNew : RowingData) (now1 now2 : Int)
    (hname : dNew.name = dOld.name) (hsrc : dNew.sourceUrl = dOld.sourceUrl)
    (hfresh : dataKey dNew ∉ keys (ingestBatch s (pre ++ dOld :: post) now1)) :
    (ingestBatch (ingestBatch s (pre ++ dOld :: post) now1) (pre ++ dOld :: post) now2).length
      = (ingestBatch s (pre ++ dOld :: post) now1).length ∧
    (ingestBatch (ingestBatch s (pre ++ dOld :: post) now1) (pre ++ dNew :: post) now2).length
      = (ingestBatch s (pre ++ dOld :: post) now1).length + 1 ∧
    ((keys s).Nodup →
      (keys (ingestBatch (ingestBatch s (pre ++ dOld :: post) now1) (pre ++ dNew :: post) now2)).Nodup) := by
  set B := pre ++ dOld :: post with hB
  set s1 := ingestBatch s B now1 with hs1
  have hall : ∀ d ∈ B, dataKey d ∈ keys s1 := fun d hd => mem_keys_ingestBatch now1 hd
  refine ⟨length_ingestBatch_of_all_mem now2 hall, ?_, ?_⟩
  · rw [show pre ++ dNew :: post = (pre ++ [dNew]) ++ post by simp,
      ingestBatch_append, ingestBatch_append]
    have hpre : ∀ d ∈ pre, dataKey d ∈ keys s1 := by
      intro d hd
      exact hall d (by simp [hB, hd])
    have hkpre : keys (ingestBatch s1 pre now2) = keys s1 :=
      keys_ingestBatch_of_all_mem now2 hpre
    have hlpre : (ingestBatch s1 pre now2).length = s1.length :=
      length_ingestBatch_of_all_mem now2 hpre
    set s2 := ingestBatch s1 pre now2 with hs2
    have hfresh2 : dataKey dNew ∉ keys s2 := by rw [hkpre]; exact hfresh
    have hknew : keys (ingestBatch s2 [dNew] now2) = keys s2 ++ [dataKey dNew] := by
      simpa [ingestBatch] using keys_upsert_of_not_mem now2 hfresh2
    have hlnew : (ingestBatch s2 [dNew] now2).length = s2.length + 1 := by
      simpa [ingestBatch] using length_upsert_of_not_mem now2 hfresh2
    have hpost : ∀ d ∈ post, dataKey d ∈ keys (ingestBatch s2 [dNew] now2) := by
      intro d hd
      rw [hknew, hkpre]
      exact List.mem_append.mpr (Or.inl (hall d (by simp [hB, hd])))
    rw [length_ingestBatch_of_all_mem now2 hpost, hlnew, hlpre]
  · intro hnd
    exact nodup_keys_ingestBatch _ now2 (nodup_keys_ingestBatch B now1 hnd)

/-- A concrete sample row used by witnesses and counterexamples. -/
def sampleData (nm lu : String) : RowingData :=
  { no := "1", device := "dev", name := nm, lastUpdate := lu,
    latitude := "017 00.462N", longitude := "061 45.873W",
    latitudeDecimal := "17.0077", longitudeDecimal := "-61.76455",
    speed := "3.0", course := "90", nextWaypoint := "wp", dtf := "100",
    vmg := "2.5", sourceUrl := "src", scrapedAt := 0 }

/-- Witness for C1 at a concrete store and batch. -/
theorem ingest_dedup_key_witness :
    (ingestBatch (ingestBatch [] ([] ++ sampleData "A" "t1" :: []) 0) ([] ++ sampleData "A" "t1" :: []) 1).length
      = (ingestBatch [] ([] ++ sampleData "A" "t1" :: []) 0).length ∧
    (ingestBatch (ingestBatch [] ([] ++ sampleData "A" "t1" :: []) 0) ([] ++ sampleData "A" "t2" :: []) 1).length
      = (ingestBatch [] ([] ++ sampleData "A" "t1" :: []) 0).length + 1 ∧
    ((keys ([] : List Row)).Nodup →
      (keys (ingestBatch (ingestBatch [] ([] ++ sampleData "A" "t1" :: []) 0) ([] ++ sampleData "A" "t2" :: []) 1)).Nodup) :=
  ingest_dedup_key [] [] [] (sampleData "A" "t1") (sampleData "A" "t2") 0 1
    rfl rfl (by decide)

theorem upsert_append_update (u v : List Row) (r : Row) (d : RowingData)
    (now : Int) (hu : dataKey d ∉ keys u) (hr : rowKey r = dataKey d) :
    upsert (u ++ r :: v) d now = u ++ applyUpdate r d :: v := by
  induction u with
  | nil => simp [upsert, hr]
  | cons x xs ih =>
      have hx : rowKey x ≠ dataKey d := by
        intro he
        exact hu (by simp [keys, he])
      have hxs : dataKey d ∉ keys xs := by
        intro hm
        exact hu (by simp [keys] at hm ⊢; exact Or.inr hm)
      simp [upsert, hx, ih hxs]

/-- **C7**: the upsert's frame effect. When no row with the batch row's key
exists, a new row is inserted (with `createdAt` stamped by the store at
`now`). When the row exists (at the unique position given by the key), every
non-key field is overwritten with the batch row's values and `scrapedAt` is
set to the batch's scrape instant, while the key fields and `createdAt` are
left unchanged; all other rows are untouched. -/
theorem upsert_frame (s u v : List Row) (r : Row) (d : RowingData) (now : Int) :
    (dataKey d ∉ keys s → upsert s d now = s ++ [createRow d now]) ∧
    (dataKey d ∉ keys u → rowKey r = dataKey d →
      upsert (u ++ r :: v) d now = u ++ applyUpdate r d :: v) ∧
    (applyUpdate r d).name = r.name ∧
    (applyUpdate r d).sourceUrl = r.sourceUrl ∧
    (applyUpdate r d).lastUpdate = r.lastUpdate ∧
    (applyUpdate r d).createdAt = r.createdAt ∧
    (applyUpdate r d).latitude = d.latitude ∧
    (applyUpdate r d).longitude = d.longitude ∧
    (applyUpdate r d).latitudeDecimal = d.latitudeDecimal ∧
    (applyUpdate r d).longitudeDecimal = d.longitudeDecimal ∧
    (applyUpdate r d).speed = d.speed ∧
    (applyUpdate r d).course = d.course ∧
    (applyUpdate r d).no = d.no ∧
    (applyUpdate r d).device = d.device ∧
    (applyUpdate r d).nextWaypoint = d.nextWaypoint ∧
    (applyUpdate r d).dtf = d.dtf ∧
    (applyUpdate r d).vmg = d.vmg ∧
    (applyUpdate r d).scrapedAt = d.scrapedAt :=
  ⟨fun h => upsert_of_not_mem now h,
   fun hu hr => upsert_append_update u v r d now hu hr,
   rfl, rfl, rfl, rfl, rfl, rfl, rfl, rfl, rfl, rfl, rfl, rfl, rfl, rfl, rfl, rfl⟩

/-- Witness for C7 at a concrete store, row and batch row. -/
theorem upsert_frame_witness :
    (dataKey (sampleData "A" "t2") ∉ keys [createRow (sampleData "A" "t1") 5] →
      upsert [createRow (sampleData "A" "t1") 5] (sampleData "A" "t2") 7
        = [createRow (sampleData "A" "t1") 5] ++ [createRow (sampleData "A" "t2") 7]) ∧
    (dataKey (sampleData "A" "t2") ∉ keys [] →
      rowKey (createRow (sampleData "A" "t2") 5) = dataKey (sampleData "A" "t2") →
      upsert ([] ++ createRow (sampleData "A" "t2") 5 :: []) (sampleData "A" "t2") 7
        = [] ++ applyUpdate (createRow (sampleData "A" "t2") 5) (sampleData "A" "t2") :: []) ∧
    (applyUpdate (createRow (sampleData "A" "t2") 5) (sampleData "A" "t2")).name
        = (createRow (sampleData "A" "t2") 5).name ∧
    (applyUpdate (createRow (sampleData "A" "t2") 5) (sampleData "A" "t2")).sourceUrl
        = (createRow (sampleData "A" "t2") 5).sourceUrl ∧
    (applyUpdate (createRow (sampleData "A" "t2") 5) (sampleData "A" "t2")).lastUpdate
        = (createRow (sampleData "A" "t2") 5).lastUpdate ∧
    (applyUpdate (createRow (sampleData "A" "t2") 5) (sampleData "A" "t2")).createdAt
        = (createRow (sampleData "A" "t2") 5).createdAt ∧
    (applyUpdate (createRow (sampleData "A" "t2") 5) (sampleData "A" "t2")).latitude
        = (sampleData "A" "t2").latitude ∧
    (applyUpdate (createRow (sampleData "A" "t2") 5) (sampleData "A" "t2")).longitude
        = (sampleData "A" "t2").longitude ∧
    (applyUpdate (createRow (sampleData "A" "t2") 5) (sampleData "A" "t2")).latitudeDecimal
        = (sampleData "A" "t2").latitudeDecimal ∧
    (applyUpdate (createRow (sampleData "A" "t2") 5) (sampleData "A" "t2")).longitudeDecimal
        = (sampleData "A" "t2").longitudeDecimal ∧
    (applyUpdate (createRow (sampleData "A" "t2") 5) (sampleData "A" "t2")).speed
        = (sampleData "A" "t2").speed ∧
    (applyUpdate (createRow (sampleData "A" "t2") 5) (sampleData "A" "t2")).course
        = (sampleData "A" "t2").course ∧
    (applyUpdate (createRow (sampleData "A" "t2") 5) (sampleData "A" "t2")).no
        = (sampleData "A" "t2").no ∧
    (applyUpdate (createRow (sampleData "A" "t2") 5) (sampleData "A" "t2")).device
        = (sampleData "A" "t2").device ∧
    (applyUpdate (createRow (sampleData "A" "t2") 5) (sampleData "A" "t2")).nextWaypoint
        = (sampleData "A" "t2").nextWaypoint ∧
    (applyUpdate (createRow (sampleData "A" "t2") 5) (sampleData "A" "t2")).dtf
        = (sampleData "A" "t2").dtf ∧
    (applyUpdate (createRow (sampleData "A" "t2") 5) (sampleData "A" "t2")).vmg
        = (sampleData "A" "t2").vmg ∧
    (applyUpdate (createRow (sampleData "A" "t2") 5) (sampleData "A" "t2")).scrapedAt
        = (sampleData "A" "t2").scrapedAt :=
  upsert_frame [createRow (sampleData "A" "t1") 5] []
    [] (createRow (sampleData "A" "t2") 5) (sampleData "A" "t2") 7

/-! ## Failure semantics of the database section (scraper.ts:179-235) -/

/-- The body of the inner `try` (scraper.ts:186-229): upserts run
sequentially in batch order; `fails` marks the write the store rejects. A
rejected write throws, so the loop stops there — rows already written stay
written, the failing row and the rows after it are not attempted. Returns
the store as left behind and whether an error was thrown. -/
def runUpserts (fails : RowingData → Bool) :
    List Row → List RowingData → Int → List Row × Bool
  | s, [], _ => (s, false)
  | s, d :: ds, now =>
      if fails d then (s, true)
      else runUpserts fails (upsert s d now) ds now

structure IngestOutcome where
  csvRows : List RowingData
  store : List Row
  dbErrorLogged : Bool
  deriving Repr, DecidableEq

/-- `scrapeSingleUrl` after parsing (scraper.ts:148-235): the CSV files are
written from the whole batch before the database section runs; the database
section's single `catch` logs the error once and does not rethrow, so the
call always returns normally and the CSV content never depends on database
success. -/
def ingestAndPersist (fails : RowingData → Bool) (s : List Row)
    (batch : List RowingData) (now : Int) : IngestOutcome :=
  let r := runUpserts fails s batch now
  { csvRows := batch, store := r.1, dbErrorLogged := r.2 }

/-- **C5 counterexample**: with a batch of two samples whose first store
write fails, the second sample is *not* written (its key is absent from the
resulting store), contradicting the claim that the remaining samples in the
batch are still written; the failure is logged for the batch. -/
theorem ingest_batch_continue_counterexample :
    (ingestAndPersist (fun d => d.lastUpdate == "t1") []
        [sampleData "A" "t1", sampleData "B" "t2"] 0).dbErrorLogged = true ∧
    dataKey (sampleData "B" "t2") ∉
      keys (ingestAndPersist (fun d => d.lastUpdate == "t1") []
        [sampleData "A" "t1", sampleData "B" "t2"] 0).store := by
  decide

/-- **C5 (amended)**: a store write failure for one sample aborts the rest of
the batch's store writes — samples before the failing one are written, the
failing one and all later ones are not — but the error is caught and
reported once for the whole batch and is not propagated to the caller (the
function returns normally), and CSV persistence of the same batch is
unaffected (the CSV rows are the full batch regardless of the failure). -/
theorem ingest_failure_semantics (fails : RowingData → Bool) (s : List Row)
    (pre post : List RowingData) (d : RowingData) (now : Int)
    (hpre : ∀ x ∈ pre, fails x = false) (hd : fails d = true) :
    ingestAndPersist fails s (pre ++ d :: post) now =
      { csvRows := pre ++ d :: post,
        store := ingestBatch s pre now,
        dbErrorLogged := true } := by
  induction pre generalizing s with
  | nil => simp [ingestAndPersist, runUpserts, hd, ingestBatch]
  | cons x xs ih =>
      have hx : fails x = false := hpre x (by simp)
      have hxs : ∀ y ∈ xs, fails y = false := fun y hy => hpre y (by simp [hy])
      have h2 := ih (upsert s x now) hxs
      have h3 := congrArg IngestOutcome.store h2
      have h4 := congrArg IngestOutcome.dbErrorLogged h2
      simp only [ingestAndPersist] at h3 h4
      simp only [ingestAndPersist, IngestOutcome.mk.injEq]
      refine ⟨trivial, ?_, ?_⟩
      · simpa [runUpserts, hx, ingestBatch] using h3
      · simpa [runUpserts, hx] using h4

/-- Witness for C5's amended theorem at a concrete batch. -/
theorem ingest_failure_semantics_witness :
    ingestAndPersist (fun x => x.lastUpdate == "t2") []
        ([sampleData "A" "t1"] ++ sampleData "B" "t2" :: [sampleData "C" "t3"]) 0 =
      { csvRows := [sampleData "A" "t1"] ++ sampleData "B" "t2" :: [sampleData "C" "t3"],
        store := ingestBatch [] [sampleData "A" "t1"] 0,
        dbErrorLogged := true } :=
  ingest_failure_semantics (fun x => x.lastUpdate == "t2") []
    [sampleData "A" "t1"] [sampleData "C" "t3"] (sampleData "B" "t2") 0
    (by decide) (by decide)

/-! ## Insertion-order grouping (JS `Map`s and plain-object maps) -/

section Grouping

variable {α κ : Type} [DecidableEq κ]

/-- One step of grouping a value into a JS `Map`/object keyed by `key`:
an existing entry gets the value pushed at the end, a new key is appended
after the existing entries (JS insertion order). -/
def insertGroupedBy (key : α → κ) :
    List (κ × List α) → α → List (κ × List α)
  | [], a => [(key a, [a])]
  | (n, xs) :: rest, a =>
      if n = key a then (n, xs ++ [a]) :: rest
      else (n, xs) :: insertGroupedBy key rest a

/-- `allData.forEach(record => map.get(record.key).push(record))`. -/
def groupBy (key : α → κ) (l : List α) : List (κ × List α) :=
  l.foldl (insertGroupedBy key) []

/-- `map.get(n)` with `[]` for a missing key (`teamDataMap[teamName] || []`). -/
def lookupGroup (gs : List (κ × List α)) (n : κ) : List α :=
  ((gs.find? (fun g => decide (g.1 = n))).map Prod.snd).getD []

theorem lookupGroup_nil (n : κ) : lookupGroup ([] : List (κ × List α)) n = [] := rfl

theorem lookupGroup_cons_eq {m n : κ} (xs : List α) (rest : List (κ × List α))
    (h : m = n) : lookupGroup ((m, xs) :: rest) n = xs := by
  simp [lookupGroup, List.find?_cons_of_pos, h]

theorem lookupGroup_cons_ne {m n : κ} (xs : List α) (rest : List (κ × List α))
    (h : m ≠ n) : lookupGroup ((m, xs) :: rest) n = lookupGroup rest n := by
  simp only [lookupGroup]
  rw [List.find?_cons_of_neg]
  simp [h]

theorem lookupGroup_insertGroupedBy (key : α → κ)
    (acc : List (κ × List α)) (a : α) (n : κ) :
    lookupGroup (insertGroupedBy key acc a) n =
      if key a = n then lookupGroup acc n ++ [a] else lookupGroup acc n := by
  induction acc with
  | nil =>
      by_cases h : key a = n
      · rw [if_pos h]
        simp only [insertGroupedBy, lookupGroup_nil, List.nil_append]
        exact lookupGroup_cons_eq [a] [] h
      · rw [if_neg h]
        simp only [insertGroupedBy, lookupGroup_nil]
        exact lookupGroup_cons_ne [a] [] h
  | cons g rest ih =>
      obtain ⟨m, xs⟩ := g
      by_cases hm : m = key a
      · by_cases hn : m = n
        · have hk : key a = n := hm.symm.trans hn
          rw [if_pos hk]
          simp only [insertGroupedBy, if_pos hm]
          rw [lookupGroup_cons_eq (xs ++ [a]) rest hn,
            lookupGroup_cons_eq xs rest hn]
        · have hk : ¬ (key a = n) := fun he => hn (hm.trans he)
          rw [if_neg hk]
          simp only [insertGroupedBy, if_pos hm]
          rw [lookupGroup_cons_ne (xs ++ [a]) rest hn,
            lookupGroup_cons_ne xs rest hn]
      · have hm' : ¬ (m = key a) := hm
        by_cases hn : m = n
        · have hk : ¬ (key a = n) := fun he => hm (hn.trans he.symm)
          rw [if_neg hk]
          simp only [insertGroupedBy, if_neg hm']
          rw [lookupGroup_cons_eq xs _ hn, lookupGroup_cons_eq xs rest hn]
        · simp only [insertGroupedBy, if_neg hm']
          rw [lookupGroup_cons_ne xs _ hn, lookupGroup_cons_ne xs rest hn]
          exact ih

theorem keys_insertGroupedBy (key : α → κ) (acc : List (κ × List α)) (a : α) :
    (insertGroupedBy key acc a).map Prod.fst =
      if key a ∈ acc.map Prod.fst then acc.map Prod.fst
      else acc.map Prod.fst ++ [key a] := by
  induction acc with
  | nil => simp [insertGroupedBy]
  | cons g rest ih =>
      obtain ⟨m, xs⟩ := g
      by_cases hm : m = key a
      · subst hm
        simp [insertGroupedBy]
      · have hne : ¬ (key a = m) := fun he => hm he.symm
        by_cases hmem : key a ∈ rest.map Prod.fst
        · simp [insertGroupedBy, hm, ih, hmem, hne]
        · simp [insertGroupedBy, hm, ih, hmem, hne]

theorem lookupGroup_foldl (key : α → κ) (l : List α)
    (acc : List (κ × List α)) (n : κ) :
    lookupGroup (l.foldl (insertGroupedBy key) acc) n =
      lookupGroup acc n ++ l.filter (fun x => decide (key x = n)) := by
  induction l generalizing acc with
  | nil => simp
  | cons a l ih =>
      rw [List.foldl_cons, ih, lookupGroup_insertGroupedBy]
      by_cases h : key a = n
      · simp [List.filter_cons, h]
      · simp [List.filter_cons, h]

theorem lookupGroup_groupBy (key : α → κ) (l : List α) (n : κ) :
    lookupGroup (groupBy key l) n = l.filter (fun x => decide (key x = n)) := by
  simpa [lookupGroup] using lookupGroup_foldl key l [] n

theorem mem_keys_foldl_iff (key : α → κ) (l : List α)
    (acc : List (κ × List α)) (n : κ) :
    n ∈ (l.foldl (insertGroupedBy key) acc).map Prod.fst ↔
      n ∈ acc.map Prod.fst ∨ n ∈ l.map key := by
  induction l generalizing acc with
  | nil => simp
  | cons a l ih =>
      rw [List.foldl_cons, ih, keys_insertGroupedBy]
      simp only [List.map_cons, List.mem_cons]
      by_cases h : key a ∈ acc.map Prod.fst
      · rw [if_pos h]
        constructor
        · rintro (h1 | h1)
          · exact Or.inl h1
          · exact Or.inr (Or.inr h1)
        · rintro (h1 | h1 | h1)
          · exact Or.inl h1
          · exact Or.inl (by rw [h1]; exact h)
          · exact Or.inr h1
      · rw [if_neg h]
        simp only [List.mem_append, List.mem_singleton]
        tauto

theorem mem_keys_groupBy_iff (key : α → κ) (l : List α) (n : κ) :
    n ∈ (groupBy key l).map Prod.fst ↔ n ∈ l.map key := by
  simpa [groupBy] using mem_keys_foldl_iff key l [] n

theorem nodup_keys_foldl (key : α → κ) (l : List α)
    (acc : List (κ × List α)) (h : (acc.map Prod.fst).Nodup) :
    ((l.foldl (insertGroupedBy key) acc).map Prod.fst).Nodup := by
  induction l generalizing acc with
  | nil => exact h
  | cons a l ih =>
      rw [List.foldl_cons]
      refine ih _ ?_
      rw [keys_insertGroupedBy]
      by_cases hm : key a ∈ acc.map Prod.fst
      · rwa [if_pos hm]
      · rw [if_neg hm, List.nodup_append]
        refine ⟨h, by simp, ?_⟩
        intro k hk hk2
        simp only [List.mem_singleton] at hk2
        subst hk2
        exact hm hk

theorem nodup_keys_groupBy (key : α → κ) (l : List α) :
    ((groupBy key l).map Prod.fst).Nodup :=
  nodup_keys_foldl key l [] (by simp)

theorem mem_groupBy_content {key : α → κ} {l : List α}
    {g : κ × List α} (hg : g ∈ groupBy key l) :
    g.2 = l.filter (fun x => decide (key x = g.1)) := by
  rw [← lookupGroup_groupBy key l g.1]
  have hnd := nodup_keys_groupBy key l
  revert hg hnd
  generalize groupBy key l = gs
  intro hg hnd
  induction gs with
  | nil => cases hg
  | cons h t ih =>
      rcases List.mem_cons.mp hg with rfl | hmem
      · simp [lookupGroup, List.find?]
      · have hne : h.1 ≠ g.1 := by
          intro he
          have h1 : h.1 ∈ t.map Prod.fst := he ▸ List.mem_map.mpr ⟨g, hmem, rfl⟩
          simp only [List.map_cons, List.nodup_cons] at hnd
          exact hnd.1 h1
        have ht : (t.map Prod.fst).Nodup := by
          simp only [List.map_cons, List.nodup_cons] at hnd
          exact hnd.2
        have := ih hmem ht
        simpa [lookupGroup, List.find?, hne] using this

end Grouping

/-- First-occurrence deduplication, as performed by
`Array.from(new Set(list))`. -/
def firstOccurDedup {κ : Type} [DecidableEq κ] (l : List κ) : List κ :=
  l.foldl (fun acc n => if n ∈ acc then acc else acc ++ [n]) []

theorem mem_firstOccurDedup_foldl {κ : Type} [DecidableEq κ]
    (l : List κ) (acc : List κ) (k : κ) :
    k ∈ l.foldl (fun acc n => if n ∈ acc then acc else acc ++ [n]) acc ↔
      k ∈ acc ∨ k ∈ l := by
  induction l generalizing acc with
  | nil => simp
  | cons a l ih =>
      rw [List.foldl_cons, ih]
      simp only [List.mem_cons]
      by_cases h : a ∈ acc
      · rw [if_pos h]
        constructor
        · rintro (h1 | h1)
          · exact Or.inl h1
          · exact Or.inr (Or.inr h1)
        · rintro (h1 | h1 | h1)
          · exact Or.inl h1
          · exact Or.inl (by rw [h1]; exact h)
          · exact Or.inr h1
      · rw [if_neg h]
        simp only [List.mem_append, List.mem_singleton]
        tauto

theorem mem_firstOccurDedup {κ : Type} [DecidableEq κ] (l : List κ) (k : κ) :
    k ∈ firstOccurDedup l ↔ k ∈ l := by
  simpa using mem_firstOccurDedup_foldl l [] k

theorem nodup_firstOccurDedup_foldl {κ : Type} [DecidableEq κ]
    (l : List κ) (acc : List κ) (h : acc.Nodup) :
    (l.foldl (fun acc n => if n ∈ acc then acc else acc ++ [n]) acc).Nodup := by
  induction l generalizing acc with
  | nil => exact h
  | cons a l ih =>
      rw [List.foldl_cons]
      refine ih _ ?_
      by_cases hm : a ∈ acc
      · rwa [if_pos hm]
      · rw [if_neg hm, List.nodup_append]
        refine ⟨h, by simp, ?_⟩
        intro k hk hk2
        simp only [List.mem_singleton] at hk2
        subst hk2
        exact hm hk

theorem nodup_firstOccurDedup {κ : Type} [DecidableEq κ] (l : List κ) :
    (firstOccurDedup l).Nodup :=
  nodup_firstOccurDedup_foldl l [] (by simp)

/-! ## Analytics engine (analytics.ts) -/

/-- The external JavaScript numeric parsers, kept abstract. `pf` is
`parseFloat` and `pi` is `parseInt` on the relevant string fields; `none`
encodes `NaN`. -/
structure JsParse where
  pf : String → Option ℚ
  pi : String → Option Int

/-- `parseFloat(x) || 0`: a failed parse (`NaN`) is falsy and defaults to 0;
a parsed 0 is also falsy and stays 0. -/
def jsNum (P : JsParse) (s : String) : ℚ := (P.pf s).getD 0

/-- `parseInt(x) || 0`. -/
def jsInt (P : JsParse) (s : String) : Int := (P.pi s).getD 0

/-- `parseFloat(q.toFixed(d))` at rational precision: round to `d` decimal
places (the binary-double artifacts of `toFixed` are below the granularity
any claim depends on). -/
def roundTo (d : ℕ) (q : ℚ) : ℚ := (round (q * (10 : ℚ) ^ d) : ℤ) / (10 : ℚ) ^ d

/-- One fixed 4-hour time-of-day window (analytics.ts:196-203, 382-389);
the `end` bound is exclusive. -/
structure Window where
  wname : String
  startHour : Int
  endHour : Int
  deriving Repr, DecidableEq, Inhabited

/-- The six 4-hour windows, as listed in both `getTableAnalytics` and
`calculateAnalytics`. -/
def windowsList : List Window :=
  [⟨"00:00-04:00", 0, 4⟩, ⟨"04:00-08:00", 4, 8⟩, ⟨"08:00-12:00", 8, 12⟩,
   ⟨"12:00-16:00", 12, 16⟩, ⟨"16:00-20:00", 16, 20⟩, ⟨"20:00-24:00", 20, 24⟩]

/-- `localHour >= window.start && localHour < window.end`
(analytics.ts:218, 226, 396). -/
def inWindow (tz : Int) (w : Window) (t : Int) : Bool :=
  decide (w.startHour ≤ localHourJs t tz ∧ localHourJs t tz < w.endHour)

/-- `speeds.length > 0 ? parseFloat((sum / length).toFixed(2)) : null`
(analytics.ts:229-242, 258-268). -/
def speedAvg (P : JsParse) (l : List Row) : Option ℚ :=
  if l.isEmpty then none
  else some (roundTo 2 ((l.map (fun r => jsNum P r.speed)).sum / (l.length : ℚ)))

/-- One per-team per-window comparison cell of the table-analytics
response (analytics.ts:229-255). -/
structure WindowCell where
  current : Option ℚ
  sevenDayAvg : Option ℚ
  diff : Option ℚ
  percentChange : Option ℚ
  deriving Repr, DecidableEq, Inhabited

/-- The per-window computation of `getTableAnalytics` (analytics.ts:211-256):
window filtering by local hour, the two averages, and the comparison math.
The zero-baseline guard is absent in the source: `diff / sevenDayAvg` runs
whenever both averages are non-null; at a zero baseline JavaScript yields
`Infinity` or `NaN` — a non-null value — which this rational embedding
records as the (equally non-null) junk value `some 0`. -/
def cellFor (P : JsParse) (tz : Int) (teamToday teamHist : List Row)
    (w : Window) : WindowCell :=
  match speedAvg P (teamToday.filter (fun r => inWindow tz w r.scrapedAt)),
        speedAvg P (teamHist.filter (fun r => inWindow tz w r.scrapedAt)) with
  | some c, some s7 =>
      { current := some c, sevenDayAvg := some s7,
        diff := some (roundTo 2 (c - s7)),
        percentChange := some (roundTo 1 (roundTo 2 (c - s7) / s7 * 100)) }
  | cur, sda =>
      { current := cur, sevenDayAvg := sda, diff := none, percentChange := none }

/-- One per-team row of the table-analytics response
(analytics.ts:270-277). -/
structure TeamRowOut where
  teamName : String
  dailyAverage : Option ℚ
  sevenDayAverage : Option ℚ
  dataPoints : ℕ
  historicalDataPoints : ℕ
  cells : List (String × WindowCell)
  deriving Repr, DecidableEq, Inhabited

/-- The per-team body of `tableData = teamNames.map(...)`
(analytics.ts:205-278). -/
def teamRowFor (P : JsParse) (tz : Int) (n : String)
    (teamToday teamHist : List Row) : TeamRowOut :=
  { teamName := n,
    dailyAverage := speedAvg P teamToday,
    sevenDayAverage := speedAvg P teamHist,
    dataPoints := teamToday.length,
    historicalDataPoints := teamHist.length,
    cells := windowsList.map (fun w => (w.wname, cellFor P tz teamToday teamHist w)) }

/-- The in-memory aggregation of `getTableAnalytics` (analytics.ts:178-278),
taking the two range reads (`todayData`, `historicalData`) as inputs: group
both by team name, take the sorted union of team names
(`Array.from(new Set([...keys1, ...keys2])).sort()`), and build one
comparison row per team. -/
def tableAnalytics (P : JsParse) (tz : Int)
    (todayData histData : List Row) : List TeamRowOut :=
  let gmToday := groupBy (fun r : Row => r.name) todayData
  let gmHist := groupBy (fun r : Row => r.name) histData
  let teamNames := List.insertionSort (· ≤ ·)
    (firstOccurDedup (gmToday.map Prod.fst ++ gmHist.map Prod.fst))
  teamNames.map (fun n =>
    teamRowFor P tz n (lookupGroup gmToday n) (lookupGroup gmHist n))

/-- One reported time window of `calculateAnalytics`
(analytics.ts:403-409). -/
structure TimeWindowStat where
  window : String
  startHour : Int
  endHour : Int
  avgSpeed : ℚ
  dataPoints : ℕ
  deriving Repr, DecidableEq, Inhabited

/-- One per-day stats row of `calculateAnalytics` (analytics.ts:413-418). -/
structure DailyStat where
  date : Int
  avgSpeed : ℚ
  dataPoints : ℕ
  timeWindows : List TimeWindowStat
  deriving Repr, DecidableEq, Inhabited

/-- The per-day body of `calculateAnalytics` (analytics.ts:371-419): overall
day average (0 fallback before rounding on an empty day never fires — day
groups are nonempty) and the 4-hour windows, where a window with zero
matching samples is skipped rather than pushed. -/
def dailyStatFor (P : JsParse) (tz : Int) (day : Int)
    (dayData : List Row) : DailyStat :=
  { date := day,
    avgSpeed := roundTo 2 (if dayData.isEmpty then 0
      else (dayData.map (fun r => jsNum P r.speed)).sum / (dayData.length : ℚ)),
    dataPoints := dayData.length,
    timeWindows := windowsList.filterMap (fun w =>
      let wd := dayData.filter (fun r => inWindow tz w r.scrapedAt)
      if wd.isEmpty then none
      else some { window := w.wname, startHour := w.startHour,
                  endHour := w.endHour,
                  avgSpeed := roundTo 2
                    ((wd.map (fun r => jsNum P r.speed)).sum / (wd.length : ℚ)),
                  dataPoints := wd.length }) }

theorem cellFor_current (P : JsParse) (tz : Int) (td hd : List Row) (w : Window) :
    (cellFor P tz td hd w).current =
      speedAvg P (td.filter (fun r => inWindow tz w r.scrapedAt)) := by
  rcases h1 : speedAvg P (td.filter (fun r => inWindow tz w r.scrapedAt)) with _ | c <;>
    rcases h2 : speedAvg P (hd.filter (fun r => inWindow tz w r.scrapedAt)) with _ | s7 <;>
      simp [cellFor, h1, h2]

theorem cellFor_sevenDayAvg (P : JsParse) (tz : Int) (td hd : List Row) (w : Window) :
    (cellFor P tz td hd w).sevenDayAvg =
      speedAvg P (hd.filter (fun r => inWindow tz w r.scrapedAt)) := by
  rcases h1 : speedAvg P (td.filter (fun r => inWindow tz w r.scrapedAt)) with _ | c <;>
    rcases h2 : speedAvg P (hd.filter (fun r => inWindow tz w r.scrapedAt)) with _ | s7 <;>
      simp [cellFor, h1, h2]

theorem cellFor_of_some (P : JsParse) (tz : Int) (td hd : List Row) (w : Window)
    {c s7 : ℚ}
    (h1 : speedAvg P (td.filter (fun r => inWindow tz w r.scrapedAt)) = some c)
    (h2 : speedAvg P (hd.filter (fun r => inWindow tz w r.scrapedAt)) = some s7) :
    cellFor P tz td hd w =
      { current := some c, sevenDayAvg := some s7,
        diff := some (roundTo 2 (c - s7)),
        percentChange := some (roundTo 1 (roundTo 2 (c - s7) / s7 * 100)) } := by
  unfold cellFor
  rw [h1, h2]

theorem cellFor_of_none_left (P : JsParse) (tz : Int) (td hd : List Row) (w : Window)
    (h1 : speedAvg P (td.filter (fun r => inWindow tz w r.scrapedAt)) = none) :
    cellFor P tz td hd w =
      { current := none,
        sevenDayAvg := speedAvg P (hd.filter (fun r => inWindow tz w r.scrapedAt)),
        diff := none, percentChange := none } := by
  unfold cellFor
  rw [h1]

theorem cellFor_of_none_right (P : JsParse) (tz : Int) (td hd : List Row) (w : Window)
    (h2 : speedAvg P (hd.filter (fun r => inWindow tz w r.scrapedAt)) = none) :
    cellFor P tz td hd w =
      { current := speedAvg P (td.filter (fun r => inWindow tz w r.scrapedAt)),
        sevenDayAvg := none, diff := none, percentChange := none } := by
  rcases h1 : speedAvg P (td.filter (fun r => inWindow tz w r.scrapedAt)) with _ | c
  · unfold cellFor
    rw [h1, h2]
  · unfold cellFor
    rw [h1, h2]

/-- The `dailyStats` component of `calculateAnalytics`
(analytics.ts:350-426): group the team's rows by local calendar date, sort
the dates ascending, and compute per-day stats. (The surrounding
`TeamAnalytics` wrapper only copies `data[0].name`/`data[0].sourceUrl` and
carries no behavior.) -/
def calculateAnalytics (P : JsParse) (tz : Int) (rows : List Row) :
    List DailyStat :=
  let gm := groupBy (fun r : Row => localDayOf r.scrapedAt tz) rows
  let sortedDates := List.insertionSort (· ≤ ·) (gm.map Prod.fst)
  sortedDates.map (fun day => dailyStatFor P tz day (lookupGroup gm day))

theorem speedAvg_nil (P : JsParse) : speedAvg P [] = none := rfl

theorem speedAvg_ne_none {P : JsParse} {l : List Row} (h : l ≠ []) :
    speedAvg P l ≠ none := by
  simp [speedAvg, h]

theorem map_teamRow_names (P : JsParse) (tz : Int)
    (f g : String → List Row) (l : List String) :
    (l.map (fun n => teamRowFor P tz n (f n) (g n))).map (fun r => r.teamName) = l := by
  induction l with
  | nil => rfl
  | cons a l ih =>
      rw [List.map_cons, List.map_cons, ih]
      rfl

theorem tableAnalytics_names (P : JsParse) (tz : Int)
    (todayData histData : List Row) :
    (tableAnalytics P tz todayData histData).map (fun r => r.teamName) =
      List.insertionSort (· ≤ ·) (firstOccurDedup
        ((groupBy (fun r : Row => r.name) todayData).map Prod.fst ++
         (groupBy (fun r : Row => r.name) histData).map Prod.fst)) := by
  simp only [tableAnalytics]
  apply map_teamRow_names

theorem mem_tableAnalytics {P : JsParse} {tz : Int}
    {todayData histData : List Row} {row : TeamRowOut}
    (h : row ∈ tableAnalytics P tz todayData histData) :
    row = teamRowFor P tz row.teamName
      (todayData.filter (fun r => decide (r.name = row.teamName)))
      (histData.filter (fun r => decide (r.name = row.teamName))) := by
  simp only [tableAnalytics, List.mem_map] at h
  obtain ⟨n, hn, rfl⟩ := h
  rw [lookupGroup_groupBy, lookupGroup_groupBy]
  rfl

/-- **C8**: the table-analytics response's team set is exactly the union of
the teams appearing in the target-day range and the trailing range, sorted
lexicographically and without duplicates; each team's cells are computed
from its own rows of the two ranges; a team absent from the target day has
`current = null` in every window and a non-null `sevenDayAvg` in each
window populated by its trailing rows; a team absent from the trailing
range has all trailing values (`sevenDayAvg`, `diff`, `percentChange`)
null. -/
theorem tableAnalytics_team_union (P : JsParse) (tz : Int)
    (todayData histData : List Row) :
    ((tableAnalytics P tz todayData histData).map (fun r => r.teamName)).Sorted (· ≤ ·) ∧
    ((tableAnalytics P tz todayData histData).map (fun r => r.teamName)).Nodup ∧
    (∀ n : String,
      n ∈ (tableAnalytics P tz todayData histData).map (fun r => r.teamName) ↔
        n ∈ todayData.map (fun r => r.name) ∨ n ∈ histData.map (fun r => r.name)) ∧
    (∀ row ∈ tableAnalytics P tz todayData histData,
      row.cells = windowsList.map (fun w => (w.wname,
        cellFor P tz
          (todayData.filter (fun r => decide (r.name = row.teamName)))
          (histData.filter (fun r => decide (r.name = row.teamName))) w))) ∧
    (∀ row ∈ tableAnalytics P tz todayData histData,
      row.teamName ∉ todayData.map (fun r => r.name) →
        ∀ c ∈ row.cells, c.2.current = none) ∧
    (∀ row ∈ tableAnalytics P tz todayData histData, ∀ w ∈ windowsList,
      (∃ r ∈ histData, r.name = row.teamName ∧ inWindow tz w r.scrapedAt = true) →
        ∃ c ∈ row.cells, c.1 = w.wname ∧ c.2.sevenDayAvg ≠ none) ∧
    (∀ row ∈ tableAnalytics P tz todayData histData,
      row.teamName ∉ histData.map (fun r => r.name) →
        ∀ c ∈ row.cells,
          c.2.sevenDayAvg = none ∧ c.2.diff = none ∧ c.2.percentChange = none) := by
  refine ⟨?_, ?_, ?_, ?_, ?_, ?_, ?_⟩
  · rw [tableAnalytics_names]
    exact List.sorted_insertionSort _ _
  · rw [tableAnalytics_names]
    exact ((List.perm_insertionSort _ _).nodup_iff).mpr (nodup_firstOccurDedup _)
  · intro n
    rw [tableAnalytics_names, (List.perm_insertionSort _ _).mem_iff,
      mem_firstOccurDedup, List.mem_append,
      mem_keys_groupBy_iff, mem_keys_groupBy_iff]
  · intro row hrow
    rw [mem_tableAnalytics hrow]
    rfl
  · intro row hrow hnot c hc
    rw [mem_tableAnalytics hrow] at hc
    simp only [teamRowFor, List.mem_map] at hc
    obtain ⟨w, hw, rfl⟩ := hc
    have hfil : todayData.filter (fun r => decide (r.name = row.teamName)) = [] := by
      rw [List.filter_eq_nil]
      intro r hr
      simp only [decide_eq_true_eq]
      intro he
      exact hnot (List.mem_map.mpr ⟨r, hr, he⟩)
    rw [cellFor_current, hfil]
    rfl
  · intro row hrow w hw hpop
    rw [mem_tableAnalytics hrow]
    simp only [teamRowFor]
    refine ⟨(w.wname, cellFor P tz
      (todayData.filter (fun r => decide (r.name = row.teamName)))
      (histData.filter (fun r => decide (r.name = row.teamName))) w),
      List.mem_map.mpr ⟨w, hw, rfl⟩, rfl, ?_⟩
    obtain ⟨r, hr, hname, hwin⟩ := hpop
    rw [cellFor_sevenDayAvg]
    apply speedAvg_ne_none
    intro hnil
    have : r ∈ (histData.filter (fun r => decide (r.name = row.teamName))).filter
        (fun r => inWindow tz w r.scrapedAt) := by
      rw [List.mem_filter, List.mem_filter]
      exact ⟨⟨hr, by simp [hname]⟩, hwin⟩
    rw [hnil] at this
    cases this
  · intro row hrow hnot c hc
    rw [mem_tableAnalytics hrow] at hc
    simp only [teamRowFor, List.mem_map] at hc
    obtain ⟨w, hw, rfl⟩ := hc
    have hfil : histData.filter (fun r => decide (r.name = row.teamName)) = [] := by
      rw [List.filter_eq_nil]
      intro r hr
      simp only [decide_eq_true_eq]
      intro he
      exact hnot (List.mem_map.mpr ⟨r, hr, he⟩)
    have := cellFor_of_none_right P tz
      (todayData.filter (fun r => decide (r.name = row.teamName)))
      (histData.filter (fun r => decide (r.name = row.teamName))) w
      (by rw [hfil]; rfl)
    rw [this]
    exact ⟨rfl, rfl, rfl⟩

/-- A batch row with a chosen speed string and scrape instant. -/
def sampleWith (nm lu sp : String) (t : Int) : RowingData :=
  { sampleData nm lu with speed := sp, scrapedAt := t }

/-- A concrete parser for witnesses: parses the strings "5" and "0". -/
def parseFiveZero : JsParse :=
  { pf := fun s => if s = "5" then some 5 else if s = "0" then some 0 else none,
    pi := fun _ => none }

theorem headI_mem {α : Type} [Inhabited α] {l : List α} (h : l ≠ []) :
    l.headI ∈ l := by
  cases l with
  | nil => exact absurd rfl h
  | cons a t => exact List.mem_cons_self a t

/-- Witness for C8: with no team present today and team A present only in
the trailing range, team A's response row has a null `current` in its first
window cell. -/
theorem tableAnalytics_team_union_witness :
    (((tableAnalytics parseFiveZero 0 []
        [createRow (sampleWith "A" "t2" "5" 0) 0]).headI).cells.headI).2.current
      = none := by
  have hne : tableAnalytics parseFiveZero 0 []
      [createRow (sampleWith "A" "t2" "5" 0) 0] ≠ [] := by
    simp [tableAnalytics, groupBy, insertGroupedBy, firstOccurDedup,
      List.insertionSort]
  have hcells : (((tableAnalytics parseFiveZero 0 []
      [createRow (sampleWith "A" "t2" "5" 0) 0]).headI).cells) ≠ [] := by
    simp [tableAnalytics, groupBy, insertGroupedBy, firstOccurDedup,
      List.insertionSort, teamRowFor, windowsList]
  exact (tableAnalytics_team_union parseFiveZero 0 []
      [createRow (sampleWith "A" "t2" "5" 0) 0]).2.2.2.2.1
    _ (headI_mem hne) (by simp) _ (headI_mem hcells)

/-- **C4 counterexample**: a per-team per-window comparison cell
(analytics.ts:229-255) whose trailing window average is zero (non-null)
still gets a non-null `percentChange` — the source guards only against null
averages, not a zero baseline — contradicting the claim that a zero
baseline yields null. (In JavaScript the division produces
`Infinity`/`NaN`, a non-null value.) -/
theorem percentChange_zero_baseline_counterexample :
    (cellFor parseFiveZero 0 [createRow (sampleWith "A" "t1" "5" 0) 0]
        [createRow (sampleWith "A" "t2" "0" 0) 0]
        ⟨"00:00-04:00", 0, 4⟩).sevenDayAvg = some 0 ∧
    (cellFor parseFiveZero 0 [createRow (sampleWith "A" "t1" "5" 0) 0]
        [createRow (sampleWith "A" "t2" "0" 0) 0]
        ⟨"00:00-04:00", 0, 4⟩).percentChange ≠ none := by
  have h2 : speedAvg parseFiveZero
      (([createRow (sampleWith "A" "t2" "0" 0) 0]).filter
        (fun r => inWindow 0 ⟨"00:00-04:00", 0, 4⟩ r.scrapedAt)) = some 0 := by
    have hf : ([createRow (sampleWith "A" "t2" "0" 0) 0]).filter
          (fun r => inWindow 0 ⟨"00:00-04:00", 0, 4⟩ r.scrapedAt)
        = [createRow (sampleWith "A" "t2" "0" 0) 0] := by decide
    rw [hf]
    norm_num [speedAvg, jsNum, parseFiveZero, roundTo, sampleWith, sampleData,
      createRow, round_eq]
    all_goals (simp <;> norm_num)
  have h1 : speedAvg parseFiveZero
      (([createRow (sampleWith "A" "t1" "5" 0) 0]).filter
        (fun r => inWindow 0 ⟨"00:00-04:00", 0, 4⟩ r.scrapedAt)) = some 5 := by
    have hf : ([createRow (sampleWith "A" "t1" "5" 0) 0]).filter
          (fun r => inWindow 0 ⟨"00:00-04:00", 0, 4⟩ r.scrapedAt)
        = [createRow (sampleWith "A" "t1" "5" 0) 0] := by decide
    rw [hf]
    norm_num [speedAvg, jsNum, parseFiveZero, roundTo, sampleWith, sampleData,
      createRow, round_eq]
    all_goals (simp <;> norm_num)
  rw [cellFor_of_some parseFiveZero 0 _ _ _ h1 h2]
  exact ⟨rfl, by simp⟩

/-- **C4 (amended)**: in the trailing comparison, `diff` and `percentChange`
are produced exactly when both `current` and `sevenDayAvg` are non-null —
a null baseline yields null with no thrown error, but a zero (non-null)
baseline also yields a non-null `percentChange` (in JavaScript
`Infinity`/`NaN`), not null. When produced with a non-zero baseline,
`diff` is `current - sevenDayAvg` rounded to 2 decimals, and
`percentChange` is `100 * diff / sevenDayAvg` rounded to 1 decimal. -/
theorem percentChange_null_rule (P : JsParse) (tz : Int)
    (todayData histData : List Row) :
    ∀ row ∈ tableAnalytics P tz todayData histData, ∀ c ∈ row.cells,
      (c.2.diff ≠ none ↔ c.2.current ≠ none ∧ c.2.sevenDayAvg ≠ none) ∧
      (c.2.percentChange ≠ none ↔ c.2.current ≠ none ∧ c.2.sevenDayAvg ≠ none) ∧
      (∀ cv sv : ℚ, c.2.current = some cv → c.2.sevenDayAvg = some sv →
        c.2.diff = some (roundTo 2 (cv - sv)) ∧
        (sv ≠ 0 →
          c.2.percentChange = some (roundTo 1 (roundTo 2 (cv - sv) / sv * 100)))) := by
  intro row hrow c hc
  rw [mem_tableAnalytics hrow] at hc
  simp only [teamRowFor, List.mem_map] at hc
  obtain ⟨w, hw, rfl⟩ := hc
  rcases h1 : speedAvg P ((todayData.filter (fun r => decide (r.name = row.teamName))).filter
      (fun r => inWindow tz w r.scrapedAt)) with _ | cv0
  · rw [cellFor_of_none_left P tz _ _ w h1]
    simp
  · rcases h2 : speedAvg P ((histData.filter (fun r => decide (r.name = row.teamName))).filter
        (fun r => inWindow tz w r.scrapedAt)) with _ | sv0
    · rw [cellFor_of_none_right P tz _ _ w h2]
      simp
    · rw [cellFor_of_some P tz _ _ w h1 h2]
      refine ⟨by simp, by simp, ?_⟩
      rintro cv sv h3 h4
      simp only [Option.some.injEq] at h3 h4
      subst h3
      subst h4
      exact ⟨rfl, fun _ => rfl⟩

/-- Witness for C4's amended theorem, instantiated at a concrete response
row and window cell. -/
theorem percentChange_null_rule_witness :
    (((tableAnalytics parseFiveZero 0
        [createRow (sampleWith "A" "t1" "5" 0) 0] []).headI).cells.headI).2.diff
        ≠ none ↔
      (((tableAnalytics parseFiveZero 0
        [createRow (sampleWith "A" "t1" "5" 0) 0] []).headI).cells.headI).2.current
        ≠ none ∧
      (((tableAnalytics parseFiveZero 0
        [createRow (sampleWith "A" "t1" "5" 0) 0] []).headI).cells.headI).2.sevenDayAvg
        ≠ none := by
  have hne : tableAnalytics parseFiveZero 0
      [createRow (sampleWith "A" "t1" "5" 0) 0] [] ≠ [] := by
    simp [tableAnalytics, groupBy, insertGroupedBy, firstOccurDedup,
      List.insertionSort]
  have hcells : (((tableAnalytics parseFiveZero 0
      [createRow (sampleWith "A" "t1" "5" 0) 0] []).headI).cells) ≠ [] := by
    simp [tableAnalytics, groupBy, insertGroupedBy, firstOccurDedup,
      List.insertionSort, teamRowFor, windowsList]
  exact (percentChange_null_rule parseFiveZero 0
      [createRow (sampleWith "A" "t1" "5" 0) 0] []
      _ (headI_mem hne) _ (headI_mem hcells)).1

/-- The six windows carry pairwise distinct names. -/
theorem windows_name_inj :
    ∀ w1 ∈ windowsList, ∀ w2 ∈ windowsList, w1.wname = w2.wname → w1 = w2 := by
  decide

/-- **C9**: in the window aggregator, for every reported day and every
window, a window with zero matching samples for that day is omitted from
the day's `timeWindows` list (no `avgSpeed: 0` entry), while a window with
at least one sample is reported with the mean of its samples' speeds
rounded to 2 decimals and its sample count. -/
theorem windowAggregator_omits_empty (P : JsParse) (tz : Int) (rows : List Row) :
    ∀ ds ∈ calculateAnalytics P tz rows, ∀ w ∈ windowsList,
      (((rows.filter (fun r => decide (localDayOf r.scrapedAt tz = ds.date))).filter
          (fun r => inWindow tz w r.scrapedAt)) = [] →
        ∀ tw ∈ ds.timeWindows, tw.window ≠ w.wname) ∧
      (((rows.filter (fun r => decide (localDayOf r.scrapedAt tz = ds.date))).filter
          (fun r => inWindow tz w r.scrapedAt)) ≠ [] →
        ∃ tw ∈ ds.timeWindows, tw.window = w.wname ∧
          tw.avgSpeed = roundTo 2
            ((((rows.filter (fun r => decide (localDayOf r.scrapedAt tz = ds.date))).filter
                (fun r => inWindow tz w r.scrapedAt)).map (fun r => jsNum P r.speed)).sum /
              ((((rows.filter (fun r => decide (localDayOf r.scrapedAt tz = ds.date))).filter
                (fun r => inWindow tz w r.scrapedAt)).length : ℚ))) ∧
          tw.dataPoints = (((rows.filter (fun r => decide (localDayOf r.scrapedAt tz = ds.date))).filter
                (fun r => inWindow tz w r.scrapedAt))).length) := by
  intro ds hds w hw
  simp only [calculateAnalytics, List.mem_map] at hds
  obtain ⟨day, hday, rfl⟩ := hds
  have hdd : lookupGroup (groupBy (fun r : Row => localDayOf r.scrapedAt tz) rows) day
      = rows.filter (fun x => decide (localDayOf x.scrapedAt tz = day)) :=
    lookupGroup_groupBy _ rows day
  have hdate : (dailyStatFor P tz day
      (lookupGroup (groupBy (fun r : Row => localDayOf r.scrapedAt tz) rows) day)).date
      = day := rfl
  rw [hdate, hdd]
  simp only [dailyStatFor]
  constructor
  · intro hnil tw htw
    simp only [List.mem_filterMap] at htw
    obtain ⟨w2, hw2, hfw2⟩ := htw
    by_cases he : ((rows.filter (fun x => decide (localDayOf x.scrapedAt tz = day))).filter
        (fun r => inWindow tz w2 r.scrapedAt)).isEmpty
    · rw [if_pos he] at hfw2
      cases hfw2
    · rw [if_neg he] at hfw2
      injection hfw2 with h3
      intro hname
      have hw2name : w2.wname = w.wname := by
        rw [← h3] at hname
        exact hname
      have hww : w2 = w := windows_name_inj w2 hw2 w hw hw2name
      subst hww
      rw [hnil] at he
      exact he rfl
  · intro hne
    have he : ((rows.filter (fun x => decide (localDayOf x.scrapedAt tz = day))).filter
        (fun r => inWindow tz w r.scrapedAt)).isEmpty = false := by
      simpa [List.isEmpty_iff] using hne
    refine ⟨⟨w.wname, w.startHour, w.endHour,
        roundTo 2
          ((((rows.filter (fun r => decide (localDayOf r.scrapedAt tz = day))).filter
              (fun r => inWindow tz w r.scrapedAt)).map (fun r => jsNum P r.speed)).sum /
            ((((rows.filter (fun r => decide (localDayOf r.scrapedAt tz = day))).filter
              (fun r => inWindow tz w r.scrapedAt)).length : ℚ))),
        (((rows.filter (fun r => decide (localDayOf r.scrapedAt tz = day))).filter
              (fun r => inWindow tz w r.scrapedAt))).length⟩, ?_, rfl, rfl, rfl⟩
    simp only [List.mem_filterMap]
    refine ⟨w, hw, ?_⟩
    rw [he]
    rfl

/-- Witness for C9 at a one-row data set: the day's first window. -/
theorem windowAggregator_omits_empty_witness :
    ((([createRow (sampleWith "A" "t1" "5" 0) 0].filter (fun r =>
        decide (localDayOf r.scrapedAt 0 =
          ((calculateAnalytics parseFiveZero 0
            [createRow (sampleWith "A" "t1" "5" 0) 0]).headI).date))).filter
        (fun r => inWindow 0 ⟨"00:00-04:00", 0, 4⟩ r.scrapedAt)) = [] →
      ∀ tw ∈ ((calculateAnalytics parseFiveZero 0
          [createRow (sampleWith "A" "t1" "5" 0) 0]).headI).timeWindows,
        tw.window ≠ (⟨"00:00-04:00", 0, 4⟩ : Window).wname) ∧
    ((([createRow (sampleWith "A" "t1" "5" 0) 0].filter (fun r =>
        decide (localDayOf r.scrapedAt 0 =
          ((calculateAnalytics parseFiveZero 0
            [createRow (sampleWith "A" "t1" "5" 0) 0]).headI).date))).filter
        (fun r => inWindow 0 ⟨"00:00-04:00", 0, 4⟩ r.scrapedAt)) ≠ [] →
      ∃ tw ∈ ((calculateAnalytics parseFiveZero 0
          [createRow (sampleWith "A" "t1" "5" 0) 0]).headI).timeWindows,
        tw.window = (⟨"00:00-04:00", 0, 4⟩ : Window).wname ∧
        tw.avgSpeed = roundTo 2
          (((([createRow (sampleWith "A" "t1" "5" 0) 0].filter (fun r =>
              decide (localDayOf r.scrapedAt 0 =
                ((calculateAnalytics parseFiveZero 0
                  [createRow (sampleWith "A" "t1" "5" 0) 0]).headI).date))).filter
              (fun r => inWindow 0 ⟨"00:00-04:00", 0, 4⟩ r.scrapedAt)).map
              (fun r => jsNum parseFiveZero r.speed)).sum /
            (((([createRow (sampleWith "A" "t1" "5" 0) 0].filter (fun r =>
              decide (localDayOf r.scrapedAt 0 =
                ((calculateAnalytics parseFiveZero 0
                  [createRow (sampleWith "A" "t1" "5" 0) 0]).headI).date))).filter
              (fun r => inWindow 0 ⟨"00:00-04:00", 0, 4⟩ r.scrapedAt)).length : ℚ))) ∧
        tw.dataPoints = ((([createRow (sampleWith "A" "t1" "5" 0) 0].filter (fun r =>
            decide (localDayOf r.scrapedAt 0 =
              ((calculateAnalytics parseFiveZero 0
                [createRow (sampleWith "A" "t1" "5" 0) 0]).headI).date))).filter
            (fun r => inWindow 0 ⟨"00:00-04:00", 0, 4⟩ r.scrapedAt))).length) := by
  have hne : calculateAnalytics parseFiveZero 0
      [createRow (sampleWith "A" "t1" "5" 0) 0] ≠ [] := by
    simp [calculateAnalytics, groupBy, insertGroupedBy, List.insertionSort]
  exact windowAggregator_omits_empty parseFiveZero 0
    [createRow (sampleWith "A" "t1" "5" 0) 0]
    _ (headI_mem hne) ⟨"00:00-04:00", 0, 4⟩ (by decide)

/-! ## Map playback (database.ts, `getMapData`) -/

/-- One position object pushed per store row (database.ts:218-228):
`lat`/`lng` are `parseFloat` of the decimal-coordinate strings (`none`
encodes `NaN`), `speed` is `parseFloat(speed) || 0`, `course` is
`parseInt(course) || 0`. -/
structure Position where
  name : String
  lat : Option ℚ
  lng : Option ℚ
  latOriginal : String
  lngOriginal : String
  speed : ℚ
  course : Int
  lastUpdate : String
  scrapedAt : Int
  deriving Repr, DecidableEq, Inhabited

def toPosition (P : JsParse) (r : Row) : Position :=
  { name := r.name, lat := P.pf r.latitudeDecimal, lng := P.pf r.longitudeDecimal,
    latOriginal := r.latitude, lngOriginal := r.longitude,
    speed := jsNum P r.speed, course := jsInt P r.course,
    lastUpdate := r.lastUpdate, scrapedAt := r.scrapedAt }

/-- `timestamps.sort((a, b) => b - a)` (database.ts:233-235): descending. -/
def sortTimestampsDesc (l : List Int) : List Int :=
  List.insertionSort (fun a b : Int => a ≥ b) l

/-- `Math.max(1, Math.floor(totalBoats * 0.5))` (database.ts:240); natural
division is the floor. -/
def minBoatsThreshold (totalBoats : ℕ) : ℕ := max 1 (totalBoats / 2)

/-- How many boats (groups) have a position at exactly `ts`
(database.ts:243-248). -/
def boatsAtInstant (groups : List (String × List Position)) (ts : Int) : ℕ :=
  groups.countP (fun g => g.2.any (fun p => decide (p.scrapedAt = ts)))

/-- One boat entry of a frame (database.ts:278-284): the position's fields
spread together with the comparison fields. -/
structure BoatFrame where
  name : String
  lat : Option ℚ
  lng : Option ℚ
  latOriginal : String
  lngOriginal : String
  speed : ℚ
  course : Int
  lastUpdate : String
  scrapedAt : Int
  avgSpeed : ℚ
  prevAvgSpeed : Option ℚ
  speedDiff : Option ℚ
  percentChange : Option ℚ
  deriving Repr, DecidableEq, Inhabited

/-- The per-boat body of the frame construction (database.ts:260-285):
`find` the position at exactly the timestamp; its successor in the
descending position list (`currentIndex + 1`) is the baseline; a zero
baseline takes the `: 0` branch of `prevAvgSpeed !== 0 ? ... : 0`, a
missing baseline leaves the comparison fields null. -/
def boatEntry (ps : List Position) (ts : Int) : Option BoatFrame :=
  match ps.find? (fun p => decide (p.scrapedAt = ts)) with
  | none => none
  | some p =>
      match ps.get? (ps.findIdx (fun p => decide (p.scrapedAt = ts)) + 1) with
      | none =>
          some { name := p.name, lat := p.lat, lng := p.lng,
                 latOriginal := p.latOriginal, lngOriginal := p.lngOriginal,
                 speed := p.speed, course := p.course,
                 lastUpdate := p.lastUpdate, scrapedAt := p.scrapedAt,
                 avgSpeed := p.speed, prevAvgSpeed := none,
                 speedDiff := none, percentChange := none }
      | some q =>
          some { name := p.name, lat := p.lat, lng := p.lng,
                 latOriginal := p.latOriginal, lngOriginal := p.lngOriginal,
                 speed := p.speed, course := p.course,
                 lastUpdate := p.lastUpdate, scrapedAt := p.scrapedAt,
                 avgSpeed := p.speed, prevAvgSpeed := some q.speed,
                 speedDiff := some (p.speed - q.speed),
                 percentChange := some (roundTo 1
                   (if q.speed ≠ 0 then (p.speed - q.speed) / q.speed * 100 else 0)) }

structure MapFrame where
  timestamp : Int
  boats : List BoatFrame
  deriving Repr, DecidableEq, Inhabited

/-- One frame (database.ts:255-292): boats with a position at exactly the
timestamp, filtered to those whose decimal coordinates parsed
(`!isNaN(boat.lat) && !isNaN(boat.lng)`). -/
def frameAt (groups : List (String × List Position)) (ts : Int) : MapFrame :=
  { timestamp := ts,
    boats := (groups.filterMap (fun g => boatEntry g.2 ts)).filter
      (fun b => b.lat.isSome && b.lng.isSome) }

structure MapResponse where
  timestamps : List Int
  frames : List MapFrame
  boatCount : ℕ
  totalTimestamps : ℕ
  filteredTimestamps : ℕ
  deriving Repr, DecidableEq, Inhabited

/-- The whole `getMapData` aggregation (database.ts:210-301), taking the
range read (rows for one source, ordered by `scrapedAt` descending) as
input: group positions by boat, collect the distinct scrape instants
(insertion-ordered `Set`), sort them descending, keep the meaningful ones
(at least `max(1, floor(totalBoats/2))` boats reporting at that exact
instant), and build one frame per retained instant. -/
def mapData (P : JsParse) (rows : List Row) : MapResponse :=
  let ps := rows.map (toPosition P)
  let groups := groupBy (fun p : Position => p.name) ps
  let sortedTs := sortTimestampsDesc (firstOccurDedup (ps.map (fun p => p.scrapedAt)))
  let meaningful := sortedTs.filter (fun ts =>
    decide (minBoatsThreshold groups.length ≤ boatsAtInstant groups ts))
  { timestamps := meaningful,
    frames := meaningful.map (frameAt groups),
    boatCount := groups.length,
    totalTimestamps := sortedTs.length,
    filteredTimestamps := meaningful.length }

/-- Per the spec's words (to compare with the code's count): the number of
distinct boats having a sample at exactly instant `ts`. -/
def distinctBoatsAt (rows : List Row) (ts : Int) : ℕ :=
  (((rows.filter (fun r => decide (r.scrapedAt = ts))).map (fun r => r.name)).dedup).length

/-- Per the spec's words: the threshold `ceil(totalBoats × 0.5)`, minimum 1. -/
def specCeilThreshold (n : ℕ) : ℕ := max 1 ((n + 1) / 2)

theorem length_eq_of_nodup_of_mem_iff {α : Type} [DecidableEq α]
    {l1 l2 : List α} (h1 : l1.Nodup) (h2 : l2.Nodup)
    (h : ∀ a, a ∈ l1 ↔ a ∈ l2) : l1.length = l2.length := by
  rw [← List.toFinset_card_of_nodup h1, ← List.toFinset_card_of_nodup h2]
  congr 1
  ext a
  simp only [List.mem_toFinset]
  exact h a

/-- The code's group-based count of boats reporting at an instant equals the
spec's count of distinct boat names having a sample at that instant. -/
theorem boatsAtInstant_eq_distinct (P : JsParse) (rows : List Row) (ts : Int) :
    boatsAtInstant (groupBy (fun p : Position => p.name) (rows.map (toPosition P))) ts
      = distinctBoatsAt rows ts := by
  have hcontent : ∀ g ∈ groupBy (fun p : Position => p.name) (rows.map (toPosition P)),
      g.2 = (rows.map (toPosition P)).filter (fun x => decide (x.name = g.1)) :=
    fun g hg => mem_groupBy_content hg
  have hstep1 : boatsAtInstant (groupBy (fun p : Position => p.name) (rows.map (toPosition P))) ts
      = List.countP (fun n =>
          ((rows.map (toPosition P)).filter (fun x => decide (x.name = n))).any
            (fun p => decide (p.scrapedAt = ts)))
        ((groupBy (fun p : Position => p.name) (rows.map (toPosition P))).map Prod.fst) := by
    rw [boatsAtInstant, List.countP_map]
    apply List.countP_congr
    intro g hg
    rw [hcontent g hg]
    exact Iff.rfl
  rw [hstep1, List.countP_eq_length_filter]
  simp only [distinctBoatsAt]
  apply length_eq_of_nodup_of_mem_iff
  · exact (nodup_keys_groupBy _ _).filter _
  · exact List.nodup_dedup _
  · intro n
    rw [List.mem_filter, List.mem_dedup]
    constructor
    · rintro ⟨hmem, hq⟩
      rw [List.any_eq_true] at hq
      obtain ⟨p, hp, hts⟩ := hq
      rw [List.mem_filter] at hp
      obtain ⟨hpps, hpname⟩ := hp
      rw [List.mem_map] at hpps
      obtain ⟨r, hr, rfl⟩ := hpps
      simp only [toPosition, decide_eq_true_eq] at hpname hts
      exact List.mem_map.mpr ⟨r, List.mem_filter.mpr ⟨hr, by simpa using hts⟩, hpname⟩
    · intro hmem
      rw [List.mem_map] at hmem
      obtain ⟨r, hr, rfl⟩ := hmem
      rw [List.mem_filter] at hr
      obtain ⟨hr1, hr2⟩ := hr
      refine ⟨?_, ?_⟩
      · rw [mem_keys_groupBy_iff]
        exact List.mem_map.mpr ⟨toPosition P r, List.mem_map.mpr ⟨r, hr1, rfl⟩, rfl⟩
      · rw [List.any_eq_true]
        refine ⟨toPosition P r, ?_, ?_⟩
        · rw [List.mem_filter]
          exact ⟨List.mem_map.mpr ⟨r, hr1, rfl⟩, by simp [toPosition]⟩
        · simpa [toPosition] using hr2

/-- **C2 (amended)**: the meaningful-timestamp filter retains exactly those
candidate instants (scrape instants occurring in the data) at which the
number of distinct boats reporting at exactly that instant is at least
`max(1, floor(totalBoats * 0.5))` — a floor-based threshold with minimum 1,
not the ceiling-based one; for even boat counts (such as the 10-boat
example, threshold 5) the two coincide. -/
theorem meaningful_filter_rule (P : JsParse) (rows : List Row) (ts : Int) :
    ts ∈ (mapData P rows).timestamps ↔
      ts ∈ rows.map (fun r => r.scrapedAt) ∧
        minBoatsThreshold ((mapData P rows).boatCount) ≤ distinctBoatsAt rows ts := by
  simp only [mapData, sortTimestampsDesc]
  rw [List.mem_filter, (List.perm_insertionSort _ _).mem_iff, mem_firstOccurDedup,
    decide_eq_true_eq, boatsAtInstant_eq_distinct, List.map_map]
  have hmapeq : ((fun p : Position => p.scrapedAt) ∘ toPosition P)
      = fun r : Row => r.scrapedAt := rfl
  rw [hmapeq]

/-- **C2 counterexample**: with 3 boats, an instant where exactly 1 boat
reports is retained by the code (floor threshold `max(1, floor(1.5)) = 1`),
although the claim's ceiling threshold `ceil(3 * 0.5) = 2` would exclude
it: the retained set is not the ceiling-based one. -/
theorem meaningful_filter_ceil_counterexample :
    (200 : Int) ∈ (mapData parseFiveZero
      [createRow (sampleWith "A" "t4" "5" 200) 0,
       createRow (sampleWith "A" "t1" "5" 100) 0,
       createRow (sampleWith "B" "t2" "5" 100) 0,
       createRow (sampleWith "C" "t3" "5" 100) 0]).timestamps ∧
    ¬ (specCeilThreshold ((mapData parseFiveZero
      [createRow (sampleWith "A" "t4" "5" 200) 0,
       createRow (sampleWith "A" "t1" "5" 100) 0,
       createRow (sampleWith "B" "t2" "5" 100) 0,
       createRow (sampleWith "C" "t3" "5" 100) 0]).boatCount) ≤
      distinctBoatsAt
        [createRow (sampleWith "A" "t4" "5" 200) 0,
         createRow (sampleWith "A" "t1" "5" 100) 0,
         createRow (sampleWith "B" "t2" "5" 100) 0,
         createRow (sampleWith "C" "t3" "5" 100) 0] 200) := by
  decide

theorem boatEntry_some_fields {ps : List Position} {ts : Int} {b : BoatFrame}
    (h : boatEntry ps ts = some b) :
    ∃ p, ps.find? (fun p => decide (p.scrapedAt = ts)) = some p ∧
      b.name = p.name ∧ b.lat = p.lat ∧ b.lng = p.lng ∧ b.speed = p.speed ∧
      b.scrapedAt = p.scrapedAt ∧ p.scrapedAt = ts := by
  unfold boatEntry at h
  cases hf : ps.find? (fun p => decide (p.scrapedAt = ts)) with
  | none => rw [hf] at h; cases h
  | some p =>
      rw [hf] at h
      have hpt0 := List.find?_some hf
      simp only [decide_eq_true_eq] at hpt0
      have hpt : p.scrapedAt = ts := hpt0
      cases hg : ps.get? (ps.findIdx (fun p => decide (p.scrapedAt = ts)) + 1) with
      | none =>
          rw [hg] at h
          injection h with h2
          subst h2
          exact ⟨p, rfl, rfl, rfl, rfl, rfl, rfl, hpt⟩
      | some q =>
          rw [hg] at h
          injection h with h2
          subst h2
          exact ⟨p, rfl, rfl, rfl, rfl, rfl, rfl, hpt⟩

theorem boatEntry_isSome {ps : List Position} {ts : Int}
    (h : ∃ p ∈ ps, p.scrapedAt = ts) : ∃ b, boatEntry ps ts = some b := by
  obtain ⟨p, hp, hpt⟩ := h
  have hfs : (ps.find? (fun p => decide (p.scrapedAt = ts))).isSome := by
    rw [List.find?_isSome]
    exact ⟨p, hp, by simp [hpt]⟩
  obtain ⟨p', hp'⟩ := Option.isSome_iff_exists.mp hfs
  unfold boatEntry
  rw [hp']
  cases hg : ps.get? (ps.findIdx (fun p => decide (p.scrapedAt = ts)) + 1) with
  | none => exact ⟨_, rfl⟩
  | some q => exact ⟨_, rfl⟩

/-- The per-boat distinctness relation used to pin down a boat's unique
sample at an instant. -/
theorem position_distinct_symm :
    Symmetric (fun a b : Position => a.name = b.name → a.scrapedAt ≠ b.scrapedAt) := by
  intro a b h he hts
  exact h he.symm hts.symm

/-- **C10**: in the map-playback output, the boat list of every retained
instant's frame contains exactly those boats that have a sample whose
`scrapedAt` equals that instant exactly and whose decimal coordinates
parse as numbers; a boat with no sample at exactly that instant is omitted
rather than carried forward. (Hypothesis: no boat has two store rows with
the same `scrapedAt`, which holds since one scrape batch touches each boat
once.) -/
theorem mapFrames_exact_instant (P : JsParse) (rows : List Row)
    (H2 : rows.Pairwise (fun a b => a.name = b.name → a.scrapedAt ≠ b.scrapedAt)) :
    ∀ fr ∈ (mapData P rows).frames, ∀ n : String,
      ((∃ b ∈ fr.boats, b.name = n) ↔
        ∃ r ∈ rows, r.name = n ∧ r.scrapedAt = fr.timestamp ∧
          (P.pf r.latitudeDecimal).isSome = true ∧
          (P.pf r.longitudeDecimal).isSome = true) := by
  intro fr hfr n
  simp only [mapData, List.mem_map] at hfr
  obtain ⟨ts, hts, rfl⟩ := hfr
  constructor
  · rintro ⟨b, hb, rfl⟩
    simp only [frameAt, List.mem_filter, List.mem_filterMap] at hb
    obtain ⟨⟨g, hg, hentry⟩, hcoord⟩ := hb
    rw [Bool.and_eq_true] at hcoord
    obtain ⟨hlatS, hlngS⟩ := hcoord
    obtain ⟨p, hfind, hname, hlat, hlng, hspeed, hscr, hpts⟩ :=
      boatEntry_some_fields hentry
    have hpmem : p ∈ g.2 := List.mem_of_find?_eq_some hfind
    rw [mem_groupBy_content hg, List.mem_filter] at hpmem
    obtain ⟨hpps, hpname⟩ := hpmem
    rw [List.mem_map] at hpps
    obtain ⟨r, hr, rfl⟩ := hpps
    refine ⟨r, hr, ?_, ?_, ?_, ?_⟩
    · rw [hname]
      rfl
    · exact hpts
    · rw [Option.isSome_iff_exists] at hlatS ⊢
      rwa [hlat] at hlatS
    · rw [Option.isSome_iff_exists] at hlngS ⊢
      rwa [hlng] at hlngS
  · rintro ⟨r, hr, hname, hscr, hlatS, hlngS⟩
    have hkey : n ∈ (groupBy (fun p : Position => p.name)
        (rows.map (toPosition P))).map Prod.fst := by
      rw [mem_keys_groupBy_iff]
      exact List.mem_map.mpr ⟨toPosition P r,
        List.mem_map.mpr ⟨r, hr, rfl⟩, by simp [toPosition, hname]⟩
    rw [List.mem_map] at hkey
    obtain ⟨g, hg, hgfst⟩ := hkey
    have hcontent := mem_groupBy_content hg
    have hpin : toPosition P r ∈ g.2 := by
      rw [hcontent, List.mem_filter]
      exact ⟨List.mem_map.mpr ⟨r, hr, rfl⟩, by simp [toPosition, hname, hgfst]⟩
    obtain ⟨b', hb'⟩ := boatEntry_isSome ⟨toPosition P r, hpin, hscr⟩
    obtain ⟨p2, hfind2, hname2, hlat2, hlng2, _, _, hp2ts⟩ :=
      boatEntry_some_fields hb'
    have hp2mem : p2 ∈ g.2 := List.mem_of_find?_eq_some hfind2
    have hp2name : p2.name = n := by
      have h3 := hp2mem
      rw [hcontent, List.mem_filter] at h3
      rw [hgfst] at h3
      exact of_decide_eq_true h3.2
    have hp2ps : p2 ∈ rows.map (toPosition P) := by
      have h3 := hp2mem
      rw [hcontent, List.mem_filter] at h3
      exact h3.1
    have hps2 : (rows.map (toPosition P)).Pairwise
        (fun a b : Position => a.name = b.name → a.scrapedAt ≠ b.scrapedAt) := by
      rw [List.pairwise_map]
      exact H2
    have hrps : toPosition P r ∈ rows.map (toPosition P) :=
      List.mem_map.mpr ⟨r, hr, rfl⟩
    have hpp : p2 = toPosition P r := by
      by_contra hne
      have h4 := hps2.forall position_distinct_symm hp2ps hrps hne
      apply h4
      · rw [hp2name]
        simpa [toPosition] using hname.symm
      · rw [hp2ts]
        simpa [toPosition] using hscr.symm
    refine ⟨b', ?_, by rw [hname2, hpp]; simpa [toPosition] using hname⟩
    simp only [frameAt, List.mem_filter, List.mem_filterMap]
    refine ⟨⟨g, hg, hb'⟩, ?_⟩
    rw [Bool.and_eq_true, hlat2, hlng2, hpp]
    exact ⟨hlatS, hlngS⟩

/-- In a strictly descending position list, the element after the found
index (the code's `currentIndex + 1`) is exactly the first element
chronologically earlier than the instant — the boat's most recent prior
observation. -/
theorem get_succ_findIdx_eq_find_lt {ps : List Position}
    (hsort : ps.Pairwise (fun a b => a.scrapedAt > b.scrapedAt))
    {ts : Int} {p : Position}
    (hfind : ps.find? (fun p => decide (p.scrapedAt = ts)) = some p) :
    ps.get? (ps.findIdx (fun p => decide (p.scrapedAt = ts)) + 1)
      = ps.find? (fun q => decide (q.scrapedAt < ts)) := by
  induction ps with
  | nil => cases hfind
  | cons a l ih =>
      rw [List.pairwise_cons] at hsort
      obtain ⟨ha, hl⟩ := hsort
      by_cases hat : a.scrapedAt = ts
      · have hpa : decide (a.scrapedAt = ts) = true := by simp [hat]
        rw [List.findIdx_cons, hpa]
        simp only [cond_true, zero_add]
        have hnlt : ¬ ((fun q : Position => decide (q.scrapedAt < ts)) a = true) := by
          simp [hat]
        rw [List.find?_cons_of_neg l hnlt]
        cases l with
        | nil => rfl
        | cons c m =>
            have hc : c.scrapedAt < ts := hat ▸ ha c (by simp)
            have hcp : (fun q : Position => decide (q.scrapedAt < ts)) c = true := by
              simp [hc]
            rw [List.find?_cons_of_pos m hcp]
            rfl
      · have hnpa : ¬ ((fun p : Position => decide (p.scrapedAt = ts)) a = true) := by
          simp [hat]
        have hfind' : l.find? (fun p => decide (p.scrapedAt = ts)) = some p := by
          rw [List.find?_cons_of_neg l hnpa] at hfind
          exact hfind
        have hpmem := List.mem_of_find?_eq_some hfind'
        have hpts : p.scrapedAt = ts := by
          have h5 := List.find?_some hfind'
          simpa using h5
        have hagt : a.scrapedAt > ts := hpts ▸ ha p hpmem
        have hpa : decide (a.scrapedAt = ts) = false := by simp [hat]
        rw [List.findIdx_cons, hpa]
        simp only [cond_false]
        have hnlt : ¬ ((fun q : Position => decide (q.scrapedAt < ts)) a = true) := by
          simp only [decide_eq_true_eq]
          omega
        rw [List.find?_cons_of_neg l hnlt]
        rw [show (a :: l).get? (l.findIdx (fun p => decide (p.scrapedAt = ts)) + 1 + 1)
            = l.get? (l.findIdx (fun p => decide (p.scrapedAt = ts)) + 1) from rfl]
        exact ih hl hfind'

/-- The comparison fields of a produced boat entry: the baseline is the
next element of the (descending) position list after the found index, the
null rule fires only on a missing baseline, and a zero baseline produces
the number `0` (the `: 0` branch), not null. -/
theorem boatEntry_prev {ps : List Position} {ts : Int} {b : BoatFrame}
    (hsort : ps.Pairwise (fun a b => a.scrapedAt > b.scrapedAt))
    (h : boatEntry ps ts = some b) :
    b.prevAvgSpeed = (ps.find? (fun q => decide (q.scrapedAt < ts))).map
      (fun q => q.speed) ∧
    (b.prevAvgSpeed = none → b.speedDiff = none ∧ b.percentChange = none) ∧
    (∀ q0 : ℚ, b.prevAvgSpeed = some q0 →
      b.speedDiff = some (b.speed - q0) ∧
      (q0 = 0 → b.percentChange = some (roundTo 1 0)) ∧
      (q0 ≠ 0 → b.percentChange = some (roundTo 1 ((b.speed - q0) / q0 * 100)))) := by
  unfold boatEntry at h
  cases hf : ps.find? (fun p => decide (p.scrapedAt = ts)) with
  | none => rw [hf] at h; cases h
  | some p =>
      rw [hf] at h
      have hnext := get_succ_findIdx_eq_find_lt hsort hf
      cases hg : ps.get? (ps.findIdx (fun p => decide (p.scrapedAt = ts)) + 1) with
      | none =>
          rw [hg] at h
          injection h with h2
          subst h2
          rw [← hnext, hg]
          refine ⟨rfl, fun _ => ⟨rfl, rfl⟩, ?_⟩
          intro q0 hq0
          cases hq0
      | some q =>
          rw [hg] at h
          injection h with h2
          subst h2
          rw [← hnext, hg]
          refine ⟨rfl, fun h3 => (by cases h3), ?_⟩
          intro q0 hq0
          injection hq0 with hq0
          subst hq0
          refine ⟨rfl, ?_, ?_⟩
          · intro hz
            simp [hz]
          · intro hnz
            simp [hnz]

theorem roundTo_zero (d : ℕ) : roundTo d 0 = 0 := by
  simp [roundTo]

/-- **C6 (amended)**: in the map-playback output, for every boat at every
retained instant, the comparison baseline is the boat's immediately
preceding observation chronologically (retained or not): the first strictly
earlier sample in its descending position history. When that baseline is
missing, `speedDiff` and `percentChange` are null; but a zero baseline
yields `percentChange = 0` (the `: 0` branch of the source), a number, not
null — only the missing-baseline half of the trailing-comparison null rule
applies here. (Hypotheses: the range read is ordered by `scrapedAt`
descending, as the SQL orders it, and no boat has two rows at the same
instant.) -/
theorem mapFrames_prev_baseline (P : JsParse) (rows : List Row)
    (H1 : rows.Pairwise (fun a b => a.scrapedAt ≥ b.scrapedAt))
    (H2 : rows.Pairwise (fun a b => a.name = b.name → a.scrapedAt ≠ b.scrapedAt)) :
    ∀ fr ∈ (mapData P rows).frames, ∀ b ∈ fr.boats,
      b.prevAvgSpeed = ((rows.filter (fun r => decide (r.name = b.name))).find?
          (fun r => decide (r.scrapedAt < fr.timestamp))).map
          (fun r => jsNum P r.speed) ∧
      (b.prevAvgSpeed = none → b.speedDiff = none ∧ b.percentChange = none) ∧
      (∀ q0 : ℚ, b.prevAvgSpeed = some q0 →
        b.speedDiff = some (b.speed - q0) ∧
        (q0 = 0 → b.percentChange = some 0) ∧
        (q0 ≠ 0 →
          b.percentChange = some (roundTo 1 ((b.speed - q0) / q0 * 100)))) := by
  intro fr hfr b hb
  simp only [mapData, List.mem_map] at hfr
  obtain ⟨ts, hts, rfl⟩ := hfr
  simp only [frameAt, List.mem_filter, List.mem_filterMap] at hb
  obtain ⟨⟨g, hg, hentry⟩, hcoord⟩ := hb
  obtain ⟨p, hfind, hbname, _, _, hbspeed, _, hpts⟩ := boatEntry_some_fields hentry
  have hpmem : p ∈ g.2 := List.mem_of_find?_eq_some hfind
  have hcontent := mem_groupBy_content hg
  have hpn : p.name = g.1 := by
    have h3 := hpmem
    rw [hcontent, List.mem_filter] at h3
    exact of_decide_eq_true h3.2
  have hbg : b.name = g.1 := hbname.trans hpn
  have hdecomp : g.2 = (rows.filter (fun r => decide (r.name = g.1))).map (toPosition P) := by
    rw [hcontent, List.filter_map]
    rfl
  have hrowsF := (H1.filter (fun r => decide (r.name = g.1))).and
      (H2.filter (fun r => decide (r.name = g.1)))
  have hrowsS : (rows.filter (fun r => decide (r.name = g.1))).Pairwise
      (fun a c : Row => a.scrapedAt > c.scrapedAt) := by
    refine hrowsF.imp_of_mem ?_
    intro a c hamem hcmem hac
    have han : a.name = g.1 := of_decide_eq_true (List.mem_filter.mp hamem).2
    have hcn : c.name = g.1 := of_decide_eq_true (List.mem_filter.mp hcmem).2
    have hne := hac.2 (han.trans hcn.symm)
    have hge := hac.1
    omega
  have hsort : g.2.Pairwise (fun a c : Position => a.scrapedAt > c.scrapedAt) := by
    rw [hdecomp, List.pairwise_map]
    exact hrowsS
  obtain ⟨hprev, hnone, hsome⟩ := boatEntry_prev hsort hentry
  refine ⟨?_, hnone, ?_⟩
  · rw [hprev, hbg, hdecomp, List.find?_map, Option.map_map]
    rfl
  · intro q0 hq0
    obtain ⟨hd, hz, hnz⟩ := hsome q0 hq0
    refine ⟨hd, ?_, hnz⟩
    intro h0
    rw [hz h0, roundTo_zero]

/-- A concrete parser for the map witnesses: parses the sample coordinate
strings and the speed strings "5" and "0". -/
def parseMap : JsParse :=
  { pf := fun s =>
      if s = "17.0077" then some 17
      else if s = "-61.76455" then some (-61)
      else if s = "5" then some 5
      else if s = "0" then some 0
      else none,
    pi := fun _ => none }

/-- **C6 counterexample**: a boat whose immediately preceding observation
has speed 0 (a present, zero baseline) gets a non-null `percentChange` in
the frame — the code's `prevAvgSpeed !== 0 ? ... : 0` yields the number 0 —
contradicting the claim that a zero baseline yields null. -/
theorem mapPercentChange_zero_counterexample :
    ((mapData parseMap
        [createRow (sampleWith "A" "t1" "5" 200) 0,
         createRow (sampleWith "A" "t2" "0" 100) 0]).frames.headI.boats.headI).prevAvgSpeed
      = some 0 ∧
    ((mapData parseMap
        [createRow (sampleWith "A" "t1" "5" 200) 0,
         createRow (sampleWith "A" "t2" "0" 100) 0]).frames.headI.boats.headI).percentChange
      ≠ none := by
  decide

/-- Witness for C6's amended theorem at a concrete two-sample history. -/
theorem mapFrames_prev_baseline_witness :
    (((mapData parseMap
        [createRow (sampleWith "A" "t1" "5" 200) 0,
         createRow (sampleWith "A" "t2" "0" 100) 0]).frames.headI.boats.headI).prevAvgSpeed =
      (([createRow (sampleWith "A" "t1" "5" 200) 0,
         createRow (sampleWith "A" "t2" "0" 100) 0].filter (fun r =>
          decide (r.name = ((mapData parseMap
            [createRow (sampleWith "A" "t1" "5" 200) 0,
             createRow (sampleWith "A" "t2" "0" 100) 0]).frames.headI.boats.headI).name))).find?
        (fun r => decide (r.scrapedAt < ((mapData parseMap
            [createRow (sampleWith "A" "t1" "5" 200) 0,
             createRow (sampleWith "A" "t2" "0" 100) 0]).frames.headI).timestamp))).map
        (fun r => jsNum parseMap r.speed)) ∧
    (((mapData parseMap
        [createRow (sampleWith "A" "t1" "5" 200) 0,
         createRow (sampleWith "A" "t2" "0" 100) 0]).frames.headI.boats.headI).prevAvgSpeed = none →
      ((mapData parseMap
        [createRow (sampleWith "A" "t1" "5" 200) 0,
         createRow (sampleWith "A" "t2" "0" 100) 0]).frames.headI.boats.headI).speedDiff = none ∧
      ((mapData parseMap
        [createRow (sampleWith "A" "t1" "5" 200) 0,
         createRow (sampleWith "A" "t2" "0" 100) 0]).frames.headI.boats.headI).percentChange = none) ∧
    (∀ q0 : ℚ,
      ((mapData parseMap
        [createRow (sampleWith "A" "t1" "5" 200) 0,
         createRow (sampleWith "A" "t2" "0" 100) 0]).frames.headI.boats.headI).prevAvgSpeed = some q0 →
      ((mapData parseMap
        [createRow (sampleWith "A" "t1" "5" 200) 0,
         createRow (sampleWith "A" "t2" "0" 100) 0]).frames.headI.boats.headI).speedDiff =
        some (((mapData parseMap
          [createRow (sampleWith "A" "t1" "5" 200) 0,
           createRow (sampleWith "A" "t2" "0" 100) 0]).frames.headI.boats.headI).speed - q0) ∧
      (q0 = 0 → ((mapData parseMap
          [createRow (sampleWith "A" "t1" "5" 200) 0,
           createRow (sampleWith "A" "t2" "0" 100) 0]).frames.headI.boats.headI).percentChange
        = some 0) ∧
      (q0 ≠ 0 → ((mapData parseMap
          [createRow (sampleWith "A" "t1" "5" 200) 0,
           createRow (sampleWith "A" "t2" "0" 100) 0]).frames.headI.boats.headI).percentChange
        = some (roundTo 1 ((((mapData parseMap
            [createRow (sampleWith "A" "t1" "5" 200) 0,
             createRow (sampleWith "A" "t2" "0" 100) 0]).frames.headI.boats.headI).speed - q0)
          / q0 * 100)))) := by
  have hfne : (mapData parseMap
      [createRow (sampleWith "A" "t1" "5" 200) 0,
       createRow (sampleWith "A" "t2" "0" 100) 0]).frames ≠ [] := by decide
  have hbne : ((mapData parseMap
      [createRow (sampleWith "A" "t1" "5" 200) 0,
       createRow (sampleWith "A" "t2" "0" 100) 0]).frames.headI).boats ≠ [] := by decide
  exact mapFrames_prev_baseline parseMap
    [createRow (sampleWith "A" "t1" "5" 200) 0,
     createRow (sampleWith "A" "t2" "0" 100) 0]
    (by decide) (by decide) _ (headI_mem hfne) _ (headI_mem hbne)

/-- Witness for C10 at a one-sample data set. -/
theorem mapFrames_exact_instant_witness :
    (∃ b ∈ ((mapData parseMap [createRow (sampleData "A" "t1") 0]).frames.headI).boats,
        b.name = "A") ↔
      ∃ r ∈ [createRow (sampleData "A" "t1") 0], r.name = "A" ∧
        r.scrapedAt = ((mapData parseMap
          [createRow (sampleData "A" "t1") 0]).frames.headI).timestamp ∧
        (parseMap.pf r.latitudeDecimal).isSome = true ∧
        (parseMap.pf r.longitudeDecimal).isSome = true := by
  have hfne : (mapData parseMap [createRow (sampleData "A" "t1") 0]).frames ≠ [] := by
    decide
  exact mapFrames_exact_instant parseMap [createRow (sampleData "A" "t1") 0]
    (by decide) _ (headI_mem hfne) "A"

end Rowing
